import Mathlib

/-!
Shallow embedding of the burn-up model builder and projection engine of
`src/app/buildBurnupModel.ts` (repository bobbyboruah/bunn-up).

Conventions of the embedding:
* JavaScript millisecond timestamps are modelled as `ℤ`; where the source can
  hold `NaN` in a number we use `Option ℤ` with `none` for `NaN`.
* Real-valued (floating point) computations of the source are modelled over
  `ℚ`; the source performs the same arithmetic operations in both the builder
  and the re-parameterizer, so exact rationals faithfully capture equality of
  the numeric computations.
* Counts (list lengths, `Math.max(0, a - b)` on counts) are modelled as `ℕ`,
  where truncated subtraction models the `max(0, _)` clamp.
* `Date.parse` on arbitrary Jira date strings is host-defined; a raw Jira date
  string is therefore modelled by the outcome of that call (`JsDateStr`).
* The result of `buildBurnupModel` is `Option BurnupModel`: `none` models the
  (real) non-termination of the source's bucketing loop, which happens when
  the horizon is `NaN` (unparseable `todayISO`) or when the sprint length is
  non-positive and the first window start does not exceed the horizon.
-/

namespace BunnUp

/- Batteries marks the `Rat` field operations `@[irreducible]`, which blocks
`decide`-style evaluation of concrete rational arithmetic; restore the
default reducibility for this development (proof terms are unaffected). -/
attribute [local semireducible] Rat.add Rat.sub Rat.mul Rat.inv

set_option maxRecDepth 8000

/-- `DAY_MS` from the source: one day in milliseconds. -/
def DAY_MS : ℤ := 24 * 60 * 60 * 1000

/-- `epochDayFloorMs`: timezone-proof UTC-midnight flooring by epoch day
(`Math.floor(ms / DAY_MS) * DAY_MS`).  The `NaN` guard of the source is
handled by `Option` at call sites. -/
def epochDayFloorMs (ms : ℤ) : ℤ := Int.fdiv ms DAY_MS * DAY_MS

/-- JavaScript `Math.round`: round half toward positive infinity. -/
def jsRound (q : ℚ) : ℤ := ⌊q + 1/2⌋

/-- JavaScript `Math.trunc` / ToIntegerOrInfinity on a finite rational:
truncation toward zero. -/
def ratTrunc (q : ℚ) : ℤ := Int.tdiv q.num q.den

/-- Day of week of a UTC day-aligned timestamp, as `new Date(ms).getUTCDay()`
yields it: `0 = Sunday … 6 = Saturday` (epoch day 0, 1970-01-01, was a
Thursday, i.e. 4). -/
def dayOfWeekUTC (ms : ℤ) : ℤ := (Int.fdiv ms DAY_MS + 4).emod 7

/-- Whether a day-aligned timestamp falls on Monday–Friday
(`dow !== 0 && dow !== 6` in the source). -/
def isWorkdayMs (ms : ℤ) : Bool := dayOfWeekUTC ms != 0 && dayOfWeekUTC ms != 6

/-- The loop of `subtractWorkingDaysUTC`: step back one calendar day at a
time, decrementing the counter only on Monday–Friday.  The source's `while`
loop is unrolled over the (at most two: Sunday preceded by Saturday)
consecutive weekend days that can separate two working days, which makes the
recursion structural in the number of working days left. -/
def subtractWorkingDaysGo : ℕ → ℤ → ℤ
  | 0, ms => ms
  | left + 1, ms =>
    if isWorkdayMs (ms - DAY_MS) then subtractWorkingDaysGo left (ms - DAY_MS)
    else if isWorkdayMs (ms - 2 * DAY_MS) then subtractWorkingDaysGo left (ms - 2 * DAY_MS)
    else subtractWorkingDaysGo left (ms - 3 * DAY_MS)

/-- `subtractWorkingDaysUTC(endMs, workingDays)`: subtract N working days
(Mon–Fri) from a timestamp, first flooring it to UTC midnight.
`left = Math.max(0, Math.floor(workingDays))`. -/
def subtractWorkingDaysUTC (endMs : ℤ) (workingDays : ℤ) : ℤ :=
  subtractWorkingDaysGo (max 0 workingDays).toNat (epochDayFloorMs endMs)

/-! ### JavaScript string primitives

The JavaScript string operations the source uses (`trim`, `toUpperCase`,
`split`, `includes`, `startsWith`, `===`) are modelled directly over
`List Char` by structural recursion. -/

/-- Whitespace for JavaScript's `String.prototype.trim`. -/
def jsWhitespace (c : Char) : Bool :=
  c = ' ' || c = '\t' || c = '\n' || c = '\r' || c = '\x0b' || c = '\x0c'

/-- `trim`: drop whitespace from both ends. -/
def jsTrimList (l : List Char) : List Char :=
  ((l.dropWhile jsWhitespace).reverse.dropWhile jsWhitespace).reverse

/-- ASCII upper-casing of one character (as JS `toUpperCase` acts on the
ASCII range; the statuses the source matches are ASCII). -/
def jsUpperChar (c : Char) : Char :=
  if 'a' ≤ c ∧ c ≤ 'z' then Char.ofNat (c.toNat - 32) else c

/-- `toUpperCase` over a char list. -/
def jsToUpperList (l : List Char) : List Char := l.map jsUpperChar

/-- Whether `pat` is a prefix of `s` (JS `startsWith`). -/
def listStartsWith : List Char → List Char → Bool
  | _, [] => true
  | [], _ :: _ => false
  | a :: s, b :: p => a = b && listStartsWith s p

/-- Whether `pat` occurs in `s` (JS `includes`). -/
def listContains : List Char → List Char → Bool
  | s, pat =>
    listStartsWith s pat ||
      (match s with
       | [] => false
       | _ :: rest => listContains rest pat)

/-- JS `split` with a single-character separator. -/
def splitOnChar (sep : Char) : List Char → List (List Char)
  | [] => [[]]
  | c :: rest =>
    if c = sep then [] :: splitOnChar sep rest
    else
      match splitOnChar sep rest with
      | [] => [[c]]
      | h :: t => (c :: h) :: t

/-! ### JavaScript `Number(string)` and `Date.UTC`, as used by `parseISODate` -/

/-- Value of a decimal digit character. -/
def digitVal (c : Char) : Option ℕ :=
  if c.isDigit then some (c.toNat - 48) else none

/-- Value of a hexadecimal digit character. -/
def hexDigitVal (c : Char) : Option ℕ :=
  if c.isDigit then some (c.toNat - 48)
  else if 'a' ≤ c ∧ c ≤ 'f' then some (c.toNat - 87)
  else if 'A' ≤ c ∧ c ≤ 'F' then some (c.toNat - 55)
  else none

/-- Parse a non-empty digit sequence in the given base; `none` when empty or
when any character is invalid. -/
def parseBaseDigits (base : ℕ) (valOf : Char → Option ℕ) (l : List Char) : Option ℕ :=
  match l with
  | [] => none
  | _ =>
    l.foldl
      (fun acc c =>
        match acc, valOf c with
        | some n, some v => if v < base then some (n * base + v) else none
        | _, _ => none)
      (some 0)

/-- Split a char list at the first exponent marker `e`/`E`. -/
def splitAtExpChar (l : List Char) : List Char × Option (List Char) :=
  match l.span (fun c => c ≠ 'e' ∧ c ≠ 'E') with
  | (mant, []) => (mant, none)
  | (mant, _ :: rest) => (mant, some rest)

/-- Parse the exponent part (optionally signed non-empty digit sequence). -/
def parseExponent (l : List Char) : Option ℤ :=
  match l with
  | '+' :: rest => (parseBaseDigits 10 digitVal rest).map (fun n => (n : ℤ))
  | '-' :: rest => (parseBaseDigits 10 digitVal rest).map (fun n => -(n : ℤ))
  | _ => (parseBaseDigits 10 digitVal l).map (fun n => (n : ℤ))

/-- Parse an unsigned decimal literal `digits [. digits] [exp]` / `. digits [exp]`.
`Infinity` yields `none` (a non-finite value fails the source's subsequent
`Number.isFinite` checks exactly like `NaN` does). -/
def jsUnsignedDecimal (l : List Char) : Option ℚ :=
  if l = "Infinity".toList then none
  else
    let (mant, expPart) := splitAtExpChar l
    let (ip, dotRest) := mant.span (fun c => c ≠ '.')
    let fp : Option (List Char) :=
      match dotRest with
      | [] => some []
      | _ :: rest => if rest.any (fun c => c = '.') then none else some rest
    match fp with
    | none => none
    | some fpl =>
      if ip = [] ∧ fpl = [] then none
      else if ¬ (ip.all Char.isDigit ∧ fpl.all Char.isDigit) then none
      else
        let ipVal : ℕ := (parseBaseDigits 10 digitVal ip).getD 0
        let fpVal : ℕ := (parseBaseDigits 10 digitVal fpl).getD 0
        let mantVal : ℚ := (ipVal : ℚ) + (fpVal : ℚ) / (10 : ℚ) ^ fpl.length
        match expPart with
        | none => some mantVal
        | some ex =>
          match parseExponent ex with
          | none => none
          | some e => some (mantVal * (10 : ℚ) ^ e)

/-- Parse an optionally signed decimal literal. -/
def jsDecimal (l : List Char) : Option ℚ :=
  match l with
  | '+' :: rest => jsUnsignedDecimal rest
  | '-' :: rest => (jsUnsignedDecimal rest).map (fun q => -q)
  | _ => jsUnsignedDecimal l

/-- JavaScript `Number(string)` restricted to finite results: `none` stands
for `NaN` or an infinity (both fail the `Number.isFinite` checks that every
use in the source performs).  Whitespace is trimmed; the empty string is `0`;
`0x`/`0o`/`0b` literals are unsigned only, as in ECMAScript. -/
def jsStringToNumberL (l : List Char) : Option ℚ :=
  match jsTrimList l with
  | [] => some 0
  | '0' :: 'x' :: rest => (parseBaseDigits 16 hexDigitVal rest).map (fun n => (n : ℚ))
  | '0' :: 'X' :: rest => (parseBaseDigits 16 hexDigitVal rest).map (fun n => (n : ℚ))
  | '0' :: 'o' :: rest => (parseBaseDigits 8 digitVal rest).map (fun n => (n : ℚ))
  | '0' :: 'O' :: rest => (parseBaseDigits 8 digitVal rest).map (fun n => (n : ℚ))
  | '0' :: 'b' :: rest => (parseBaseDigits 2 digitVal rest).map (fun n => (n : ℚ))
  | '0' :: 'B' :: rest => (parseBaseDigits 2 digitVal rest).map (fun n => (n : ℚ))
  | t => jsDecimal t

/-- JavaScript `Number(string)` on a `String`. -/
def jsStringToNumber (s : String) : Option ℚ := jsStringToNumberL s.toList

/-- Days since 1970-01-01 of the civil date `(y, m, d)` with `m ∈ 1..12` and
`d` an arbitrary integer day (out-of-range days roll over, as in
ECMAScript's `MakeDay`). -/
def daysFromCivil (y m d : ℤ) : ℤ :=
  let y' := if m ≤ 2 then y - 1 else y
  let era := Int.fdiv y' 400
  let yoe := y' - era * 400
  let mp := (m + 9).emod 12
  let doy := Int.fdiv (153 * mp + 2) 5 + d - 1
  let doe := yoe * 365 + Int.fdiv yoe 4 - Int.fdiv yoe 100 + doy
  era * 146097 + doe - 719468

/-- `Date.UTC(y, m, d)`: month is 0-based and rolls over; two-digit years map
to 19xx; arguments are truncated to integers; the result is clipped to the
ECMAScript time range (`none` models the `NaN` produced outside it). -/
def jsDateUTC (y m d : ℚ) : Option ℤ :=
  let yi := ratTrunc y
  let mi := ratTrunc m
  let di := ratTrunc d
  let yr := if 0 ≤ yi ∧ yi ≤ 99 then 1900 + yi else yi
  let ym := yr + Int.fdiv mi 12
  let mn := mi.emod 12
  let days := daysFromCivil ym (mn + 1) di
  let ms := days * DAY_MS
  if ms.natAbs ≤ 8640000000000000 then some ms else none

/-- `parseISODate`: split on `-`, convert the first three parts with
`Number`, and feed them to `Date.UTC(y, m - 1, d)`.  `none` models a `NaN`
result (empty string, non-numeric part, or out-of-range date). -/
def parseISODate (iso : String) : Option ℤ :=
  match iso.toList with
  | [] => none
  | l =>
    let parts := splitOnChar '-' l
    let num : Option (List Char) → Option ℚ := fun p =>
      match p with
      | none => none
      | some cs => jsStringToNumberL cs
    match num (parts.get? 0), num (parts.get? 1), num (parts.get? 2) with
    | some y, some m, some d => jsDateUTC y (m - 1) d
    | _, _, _ => none

/-! ### Issues and the normaliser -/

/-- Outcome of `Date.parse` on a raw Jira date string field.  `missing`
models a `null` or empty (falsy) string, `unparseable` a non-empty string on
which the host's `Date.parse` returns `NaN`, and `parsed ms` a string parsed
to the timestamp `ms` (not yet floored to epoch day). -/
inductive JsDateStr where
  | missing : JsDateStr
  | unparseable : JsDateStr
  | parsed : ℤ → JsDateStr
deriving DecidableEq, Repr

/-- The `statusCategory` literal union of the source. -/
inductive StatusCategory where
  | toDo : StatusCategory
  | inProgress : StatusCategory
  | done : StatusCategory
deriving DecidableEq, Repr

/-- `BurnupIssue`: the raw shape consumed by the builder (the `key` field is
never read by the core and is omitted). -/
structure BurnupIssue where
  created : JsDateStr
  resolutiondate : JsDateStr
  statusCategory : Option StatusCategory
  status : Option String
deriving DecidableEq, Repr

/-- `NormalisedIssue`: day-level timestamps plus Done/cancelled flags. -/
structure NormalisedIssue where
  createdMs : ℤ
  resolvedMs : Option ℤ
  isDone : Bool
  isCancelled : Bool
deriving DecidableEq, Repr

instance : Inhabited NormalisedIssue := ⟨⟨0, none, false, false⟩⟩

/-- JavaScript `String.prototype.includes`. -/
def jsIncludes (s pat : String) : Bool :=
  listContains s.toList pat.toList

/-- `parseJiraDate`: `Date.parse` (modelled by `JsDateStr`) followed by
epoch-day flooring; `none` is `NaN`. -/
def parseJiraDate (value : JsDateStr) : Option ℤ :=
  match value with
  | .missing => none
  | .unparseable => none
  | .parsed ms => some (epochDayFloorMs ms)

/-- JavaScript truthiness of the `resolvedMs : number | null` local of
`normaliseIssue`: `null` and `0` are falsy. -/
def truthyOptInt (o : Option ℤ) : Bool :=
  match o with
  | none => false
  | some v => v != 0

/-- `normaliseIssue`: convert a raw issue into timestamps plus flags, or
`null` when the created date is missing/unparseable.  When no resolution
date parses but the status says Done, `resolvedMs` is synthesized from
`createdMs`; the synthesis condition and the final `isDone` both use JS
truthiness of `resolvedMs` (so a timestamp of exactly 0 counts as absent). -/
def normaliseIssue (issue : BurnupIssue) : Option NormalisedIssue :=
  match parseJiraDate issue.created with
  | none => none
  | some createdMs =>
    let rawStatus := jsToUpperList (jsTrimList (issue.status.getD "").toList)
    let categoryDone := issue.statusCategory = some StatusCategory.done
    let isCancelled :=
      listContains rawStatus "WITHDRAWN".toList || listContains rawStatus "CANCELLED".toList
    let resolvedMs0 : Option ℤ := parseJiraDate issue.resolutiondate
    let resolvedMs : Option ℤ :=
      if ¬ truthyOptInt resolvedMs0 ∧ (categoryDone ∨ rawStatus = "DONE".toList) then
        some createdMs
      else resolvedMs0
    let isDone : Bool :=
      truthyOptInt resolvedMs && !isCancelled &&
        (categoryDone || rawStatus = "DONE".toList || listStartsWith rawStatus "DONE ".toList)
    some { createdMs, resolvedMs, isDone, isCancelled }

/-! ### Sprint summaries and the bucketizer -/

/-- `SprintSummary`: one fixed-length window along the sprint cadence. -/
structure SprintSummary where
  index : ℕ
  startMs : ℤ
  endMs : ℤ
  scopeAtEnd : ℕ
  scopeAtStart : ℕ
  doneThisSprint : ℕ
  cumDoneEnd : ℕ
  isClosed : Bool
deriving DecidableEq, Repr

instance : Inhabited SprintSummary := ⟨⟨0, 0, 0, 0, 0, 0, 0, false⟩⟩

/-- Scope by `endMs`: stories created before the window end and not
cancelled. -/
def scopeAtEndF (stories : List NormalisedIssue) (endMs : ℤ) : ℕ :=
  (stories.filter (fun s => decide (s.createdMs < endMs) && !s.isCancelled)).length

/-- Raw cumulative done by `endMs`: done stories with both resolution and
creation before the window end, not cancelled. -/
def doneByEndRawF (stories : List NormalisedIssue) (endMs : ℤ) : ℕ :=
  (stories.filter (fun s =>
    s.isDone &&
    (match s.resolvedMs with
     | some r => decide (r < endMs)
     | none => false) &&
    decide (s.createdMs < endMs) && !s.isCancelled)).length

/-- Clamped cumulative done: `Math.min(doneByEndRaw, scopeAtEnd)`. -/
def cumDoneEndF (stories : List NormalisedIssue) (endMs : ℤ) : ℕ :=
  min (doneByEndRawF stories endMs) (scopeAtEndF stories endMs)

/-- One iteration of the bucketing loop, as a pure function of the index:
the loop's `prevScopeAtEnd` / `prevCumDone` accumulators always hold
`scopeAtEndF` / `cumDoneEndF` evaluated at the previous window end, which is
this window's start. -/
def mkSprint (stories : List NormalisedIssue) (originMs sprintLenMs todayMs : ℤ)
    (i : ℕ) : SprintSummary :=
  let startMs := originMs + i * sprintLenMs
  let endMs := startMs + sprintLenMs
  let cumDoneEnd := cumDoneEndF stories endMs
  { index := i
    startMs := startMs
    endMs := endMs
    scopeAtEnd := scopeAtEndF stories endMs
    scopeAtStart := if i = 0 then 0 else scopeAtEndF stories startMs
    doneThisSprint := if i = 0 then cumDoneEnd else cumDoneEnd - cumDoneEndF stories startMs
    cumDoneEnd := cumDoneEnd
    isClosed := decide (endMs ≤ todayMs) }

/-- Number of iterations of the bucketing loop when the sprint length is
positive: the loop runs while `originMs + i * sprintLenMs ≤ horizonMs`. -/
def sprintCount (originMs horizonMs sprintLenMs : ℤ) : ℕ :=
  if originMs > horizonMs then 0
  else (horizonMs - originMs).toNat / sprintLenMs.toNat + 1

/-- The sprint sequence produced by the bucketing loop. -/
def buildSprints (stories : List NormalisedIssue) (originMs sprintLenMs todayMs : ℤ)
    (n : ℕ) : List SprintSummary :=
  (List.range n).map (mkSprint stories originMs sprintLenMs todayMs)

/-! ### Projection -/

/-- `BurnupProjection`: `Option` fields model the source's `number | null`
fields (`none` = `null`).  Real-valued fields are `ℚ`, anchor data is exact
(`ℤ` timestamps, `ℕ` counts). -/
structure BurnupProjection where
  hasSignal : Bool
  fromSprintIndex : Option ℕ
  fromTimeMs : Option ℤ
  fromDone : Option ℕ
  projectedDonePerSprint : Option ℚ
  avgVelPerFTE : Option ℚ
  projectedCompletionMs : Option ℚ
  projectedCompletionEarlyMs : Option ℚ
  projectedCompletionLateMs : Option ℚ
  requiredFTEToHitTarget : Option ℚ
  suggestedMaxFTE : Option ℚ
  remainingStoriesFromAnchor : Option ℕ
  sprintsRemainingToTarget : Option ℤ
  requiredStoriesPerSprintToHitTarget : Option ℚ
  recentStoriesPerSprint : Option ℚ
deriving DecidableEq, Repr

/-- The all-null, no-signal projection returned when there are no sprints or
no closed sprint. -/
def emptyProjection : BurnupProjection :=
  { hasSignal := false
    fromSprintIndex := none
    fromTimeMs := none
    fromDone := none
    projectedDonePerSprint := none
    avgVelPerFTE := none
    projectedCompletionMs := none
    projectedCompletionEarlyMs := none
    projectedCompletionLateMs := none
    requiredFTEToHitTarget := none
    suggestedMaxFTE := none
    remainingStoriesFromAnchor := none
    sprintsRemainingToTarget := none
    requiredStoriesPerSprintToHitTarget := none
    recentStoriesPerSprint := none }

instance : Inhabited BurnupProjection := ⟨emptyProjection⟩

/-- Index of the last closed sprint (the source scans from the end and
breaks at the first closed one). -/
def lastClosedIndex : List SprintSummary → Option ℕ
  | [] => none
  | s :: rest =>
    match lastClosedIndex rest with
    | some j => some (j + 1)
    | none => if s.isClosed then some 0 else none

/-- Values collected by the loop of `avgStoriesLastNClosed`: walk backward
from index `i`, pushing `doneThisSprint` of closed sprints while fewer than
`need` values are collected. -/
def avgStoriesGo (sprints : List SprintSummary) : ℕ → ℕ → List ℚ
  | i, need =>
    if need = 0 then []
    else
      match sprints.get? i with
      | none => []
      | some s =>
        if s.isClosed then
          (s.doneThisSprint : ℚ) ::
            (match i with
             | 0 => []
             | j + 1 => avgStoriesGo sprints j (need - 1))
        else
          match i with
          | 0 => []
          | j + 1 => avgStoriesGo sprints j need

/-- `avgStoriesLastNClosed`: average stories/sprint over the last `n` closed
sprints (zeros included); `null` when there are none. -/
def avgStoriesLastNClosed (sprints : List SprintSummary) (lastClosed n : ℕ) : Option ℚ :=
  match avgStoriesGo sprints lastClosed n with
  | [] => none
  | vals => some (vals.sum / (vals.length : ℚ))

/-- Samples collected by the velocity-signal loop of `computeProjection`:
walk backward from index `i` over closed sprints, examining at most
`8 - taken` further closed sprints, pushing `doneThisSprint / fte` for those
with `doneThisSprint > 0`, and stopping once `2 - got` further samples are
collected. -/
def velSamplesGo (sprints : List SprintSummary) (fte : ℚ) : ℕ → ℕ → ℕ → List ℚ
  | i, taken, got =>
    if 8 ≤ taken ∨ 2 ≤ got then []
    else
      match sprints.get? i with
      | none => []
      | some s =>
        if s.isClosed then
          if 0 < s.doneThisSprint then
            ((s.doneThisSprint : ℚ) / fte) ::
              (match i with
               | 0 => []
               | j + 1 => velSamplesGo sprints fte j (taken + 1) (got + 1))
          else
            match i with
            | 0 => []
            | j + 1 => velSamplesGo sprints fte j (taken + 1) got
        else
          match i with
          | 0 => []
          | j + 1 => velSamplesGo sprints fte j taken got

/-- `computeProjection`: anchor at the last closed sprint and derive the
velocity-based forecast.  `targetDateMs` is finite here (`buildBurnupModel`
checks finiteness before calling), so the source's `Number.isFinite`
guards on it are vacuously true. -/
def computeProjection (sprints : List SprintSummary) (sprintLenMs : ℤ) (sprintFTE : ℚ)
    (latestScope targetScope : ℕ) (targetDateMs : ℤ) : BurnupProjection :=
  match lastClosedIndex sprints with
  | none => emptyProjection
  | some lci =>
    let s := sprints.getD lci default
    let fromTimeMs := s.endMs
    let fromDone := s.cumDoneEnd
    let remainingStoriesFromAnchor : ℕ := latestScope - fromDone
    let remainingToTarget : ℕ := targetScope - fromDone
    let srt : Option ℤ × Option ℚ :=
      if targetDateMs > fromTimeMs then
        let sprintsFloat : ℚ := ((targetDateMs - fromTimeMs : ℤ) : ℚ) / (sprintLenMs : ℚ)
        if 0 < sprintsFloat then
          (some ⌈sprintsFloat⌉,
           some (if 0 < remainingToTarget then (remainingToTarget : ℚ) / sprintsFloat else 0))
        else (none, none)
      else (none, none)
    let fte : ℚ := max (1/10) sprintFTE
    let recentStoriesPerSprint := avgStoriesLastNClosed sprints lci 2
    let samples := velSamplesGo sprints fte lci 0 0
    if samples = [] then
      { hasSignal := false
        fromSprintIndex := some lci
        fromTimeMs := some fromTimeMs
        fromDone := some fromDone
        projectedDonePerSprint := none
        avgVelPerFTE := none
        projectedCompletionMs := none
        projectedCompletionEarlyMs := none
        projectedCompletionLateMs := none
        requiredFTEToHitTarget := none
        suggestedMaxFTE := none
        remainingStoriesFromAnchor := some remainingStoriesFromAnchor
        sprintsRemainingToTarget := srt.1
        requiredStoriesPerSprintToHitTarget := srt.2
        recentStoriesPerSprint := recentStoriesPerSprint }
    else
      let avgVelPerFTE : ℚ := samples.sum / (samples.length : ℚ)
      let ftePair : Option ℚ × Option ℚ :=
        if 0 < avgVelPerFTE then
          if remainingToTarget = 0 then (some 0, some (max sprintFTE 0 + 1))
          else if targetDateMs > fromTimeMs then
            let sprintsFloat : ℚ := ((targetDateMs - fromTimeMs : ℤ) : ℚ) / (sprintLenMs : ℚ)
            if 0 < sprintsFloat then
              let requiredPerSprint := (remainingToTarget : ℚ) / sprintsFloat
              let fteRequired := requiredPerSprint / avgVelPerFTE
              if 0 < fteRequired then (some fteRequired, some (fteRequired + 1))
              else (none, none)
            else (none, none)
          else (none, none)
        else (none, none)
      let projectedDonePerSprint := avgVelPerFTE * fte
      if ¬ (0 < projectedDonePerSprint) then
        { hasSignal := false
          fromSprintIndex := some lci
          fromTimeMs := some fromTimeMs
          fromDone := some fromDone
          projectedDonePerSprint := none
          avgVelPerFTE := some avgVelPerFTE
          projectedCompletionMs := none
          projectedCompletionEarlyMs := none
          projectedCompletionLateMs := none
          requiredFTEToHitTarget := ftePair.1
          suggestedMaxFTE := ftePair.2
          remainingStoriesFromAnchor := some remainingStoriesFromAnchor
          sprintsRemainingToTarget := srt.1
          requiredStoriesPerSprintToHitTarget := srt.2
          recentStoriesPerSprint := recentStoriesPerSprint }
      else
        let remaining : ℕ := latestScope - fromDone
        if remaining = 0 then
          { hasSignal := true
            fromSprintIndex := some lci
            fromTimeMs := some fromTimeMs
            fromDone := some fromDone
            projectedDonePerSprint := some projectedDonePerSprint
            avgVelPerFTE := some avgVelPerFTE
            projectedCompletionMs := some (fromTimeMs : ℚ)
            projectedCompletionEarlyMs := some (fromTimeMs : ℚ)
            projectedCompletionLateMs := some (fromTimeMs : ℚ)
            requiredFTEToHitTarget := ftePair.1
            suggestedMaxFTE := ftePair.2
            remainingStoriesFromAnchor := some remainingStoriesFromAnchor
            sprintsRemainingToTarget := srt.1
            requiredStoriesPerSprintToHitTarget := srt.2
            recentStoriesPerSprint := recentStoriesPerSprint }
        else
          let projectedSprints := (remaining : ℚ) / projectedDonePerSprint
          let projectedCompletionMs := (fromTimeMs : ℚ) + projectedSprints * (sprintLenMs : ℚ)
          let fastDonePerSprint := projectedDonePerSprint * (6/5)
          let slowDonePerSprint := projectedDonePerSprint * (4/5)
          let early :=
            if 0 < fastDonePerSprint then
              (fromTimeMs : ℚ) + ((remaining : ℚ) / fastDonePerSprint) * (sprintLenMs : ℚ)
            else projectedCompletionMs
          let late :=
            if 0 < slowDonePerSprint then
              (fromTimeMs : ℚ) + ((remaining : ℚ) / slowDonePerSprint) * (sprintLenMs : ℚ)
            else projectedCompletionMs
          { hasSignal := true
            fromSprintIndex := some lci
            fromTimeMs := some fromTimeMs
            fromDone := some fromDone
            projectedDonePerSprint := some projectedDonePerSprint
            avgVelPerFTE := some avgVelPerFTE
            projectedCompletionMs := some projectedCompletionMs
            projectedCompletionEarlyMs := some early
            projectedCompletionLateMs := some late
            requiredFTEToHitTarget := ftePair.1
            suggestedMaxFTE := ftePair.2
            remainingStoriesFromAnchor := some remainingStoriesFromAnchor
            sprintsRemainingToTarget := srt.1
            requiredStoriesPerSprintToHitTarget := srt.2
            recentStoriesPerSprint := recentStoriesPerSprint }

/-! ### The model, origin derivation and the builder -/

/-- `BurnupModel`: the aggregate root.  Date fields that can hold `NaN` in
the source (only on the empty-model path) are `Option ℤ`. -/
structure BurnupModel where
  sprintLengthDays : ℤ
  originMs : Option ℤ
  targetDateMs : Option ℤ
  targetScope : ℕ
  latestScope : ℕ
  todayMs : Option ℤ
  currentSprintStartMs : Option ℤ
  currentSprintEndMs : Option ℤ
  sprints : List SprintSummary
  projection : BurnupProjection
  totalDoneStories : ℕ
  hasAnyDone : Bool
  isOnTrack : Option Bool
  daysDeltaFromTarget : Option ℤ
deriving DecidableEq, Repr

instance : Inhabited BurnupModel :=
  ⟨⟨14, none, none, 0, 0, none, none, none, [], emptyProjection, 0, false, none, none⟩⟩

/-- `emptyModel`: the result for an invalid target date.  `none` arguments
model `NaN` inputs; the `Number.isFinite` fallbacks of the source become
`Option` matches. -/
def emptyModel (sprintLengthDays : ℤ) (originMs targetDateMs todayMs : Option ℤ) :
    BurnupModel :=
  let safeOrigin := match originMs with
    | some o => some o
    | none => todayMs
  { sprintLengthDays := sprintLengthDays
    originMs := safeOrigin
    targetDateMs :=
      match targetDateMs with
      | some t => some t
      | none => todayMs
    targetScope := 0
    latestScope := 0
    todayMs := todayMs
    currentSprintStartMs := safeOrigin
    currentSprintEndMs := safeOrigin
    sprints := []
    projection := emptyProjection
    totalDoneStories := 0
    hasAnyDone := false
    isOnTrack := none
    daysDeltaFromTarget := none }

/-- `computeScopeAtDate`: scope of the first sprint whose end is on/after
the date, falling back to the last sprint. -/
def computeScopeAtDate (sprints : List SprintSummary) (dateMs : ℤ) : ℕ :=
  match sprints with
  | [] => 0
  | _ =>
    match sprints.find? (fun s => decide (dateMs ≤ s.endMs)) with
    | some s => s.scopeAtEnd
    | none => (sprints.getLastD default).scopeAtEnd

/-- The `validDone` filter of the origin derivation. -/
def validDoneOf (stories : List NormalisedIssue) : List NormalisedIssue :=
  stories.filter (fun s => s.isDone && !s.isCancelled && !(s.resolvedMs = none : Bool))

/-- Origin derivation (`buildBurnupModel` lines 142–177): earliest Done
resolution minus a sprint's worth of working days; or earliest creation
(possibly capped by the UI start); or the UI start / today fallback; finally
floored to epoch day.  `todayMs` is finite here (see `buildBurnupModel`). -/
def deriveOriginMs (stories : List NormalisedIssue) (uiOriginMs : Option ℤ)
    (todayMs : ℤ) (sprintLenDays : ℤ) : ℤ :=
  let base : ℤ :=
    match stories with
    | [] => uiOriginMs.getD todayMs
    | _ =>
      let validDone := validDoneOf stories
      if validDone = [] then
        let earliestCreatedMs := ((stories.map (fun s => s.createdMs)).min?).getD 0
        match uiOriginMs with
        | some u => min u earliestCreatedMs
        | none => earliestCreatedMs
      else
        let earliestDoneMs := ((validDone.filterMap (fun s => s.resolvedMs)).min?).getD 0
        let workingDaysBack : ℤ := max 1 (jsRound (((sprintLenDays * 5 : ℤ) : ℚ) / 7))
        subtractWorkingDaysUTC earliestDoneMs workingDaysBack
  epochDayFloorMs base

/-- `lastStoryMs` (lines 180–192): the later of the latest creation and the
latest resolution, or the (already floored) origin when there are no
stories. -/
def lastStoryMsF (stories : List NormalisedIssue) (originMs : ℤ) : ℤ :=
  let lastStoryCreatedMs : ℤ :=
    match stories with
    | [] => originMs
    | _ => ((stories.map (fun s => s.createdMs)).max?).getD 0
  let resolvedArr := stories.filterMap (fun s => s.resolvedMs)
  match resolvedArr with
  | [] => lastStoryCreatedMs
  | _ => max lastStoryCreatedMs ((resolvedArr.max?).getD 0)

/-- The normalised story list of an input. -/
def normalisedStories (stories : List BurnupIssue) : List NormalisedIssue :=
  stories.filterMap normaliseIssue

/-- `BuildBurnupInput`.  `nowMs` models the ambient `Date.now()` reading
used when `todayISO` is absent, made explicit to keep the embedding pure. -/
structure BuildBurnupInput where
  stories : List BurnupIssue
  sprintStartISO : String
  devCompletionISO : String
  sprintFTE : ℚ
  todayISO : Option String
  sprintLengthDays : Option ℤ
  nowMs : ℤ
deriving DecidableEq, Repr

/-- `todayMs` resolution: parse the override or floor the ambient clock. -/
def resolveTodayMs (input : BuildBurnupInput) : Option ℤ :=
  match input.todayISO with
  | some s => parseISODate s
  | none => some (epochDayFloorMs input.nowMs)

/-- Assemble the model from the built sprint sequence (lines 255–313).
`originMs`, `targetDateMs` and `todayMs` are finite on this path. -/
def assembleModel (sprintLenDays originMs targetDateMs todayMs : ℤ) (sprintFTE : ℚ)
    (sprints : List SprintSummary) : BurnupModel :=
  let sprintLenMs := sprintLenDays * DAY_MS
  let latestScope : ℕ :=
    match sprints with
    | [] => 0
    | _ => (sprints.getLastD default).scopeAtEnd
  let targetScope := computeScopeAtDate sprints targetDateMs
  let totalDoneStories : ℕ :=
    match sprints with
    | [] => 0
    | _ => (sprints.getLastD default).cumDoneEnd
  let projection :=
    computeProjection sprints sprintLenMs sprintFTE latestScope targetScope targetDateMs
  let currentWindow : ℤ × ℤ :=
    if 0 < sprintLenMs then
      let deltaMs := todayMs - originMs
      let idx : ℤ := max 0 (Int.fdiv deltaMs sprintLenMs)
      let startW := originMs + idx * sprintLenMs
      (startW, startW + (sprintLenDays - 1) * DAY_MS)
    else (originMs, originMs)
  let onTrack : Option Bool × Option ℤ :=
    if projection.hasSignal then
      match projection.projectedCompletionMs with
      | some c =>
        let dd := jsRound ((c - (targetDateMs : ℚ)) / (DAY_MS : ℚ))
        (some (decide (dd ≤ 0)), some dd)
      | none => (none, none)
    else (none, none)
  { sprintLengthDays := sprintLenDays
    originMs := some originMs
    targetDateMs := some targetDateMs
    targetScope := targetScope
    latestScope := latestScope
    todayMs := some todayMs
    currentSprintStartMs := some currentWindow.1
    currentSprintEndMs := some currentWindow.2
    sprints := sprints
    projection := projection
    totalDoneStories := totalDoneStories
    hasAnyDone := decide (0 < totalDoneStories)
    isOnTrack := onTrack.1
    daysDeltaFromTarget := onTrack.2 }

/-- `buildBurnupModel`: the main entry point.  Returns `none` exactly when
the source's bucketing loop would not terminate: an unparseable `todayISO`
(the horizon is `NaN`, so `startMs > horizonMs` never holds), or a
non-positive sprint length with the first window start inside the horizon. -/
def buildBurnupModel (input : BuildBurnupInput) : Option BurnupModel :=
  let sprintLenDays := input.sprintLengthDays.getD 14
  let sprintLenMs := sprintLenDays * DAY_MS
  let uiOriginMs := parseISODate input.sprintStartISO
  let targetDateMs? := parseISODate input.devCompletionISO
  let todayMs? := resolveTodayMs input
  match targetDateMs? with
  | none => some (emptyModel sprintLenDays uiOriginMs none todayMs?)
  | some targetDateMs =>
    match todayMs? with
    | none => none
    | some todayMs =>
      let sprintFTE : ℚ := max 0 input.sprintFTE
      let stories := normalisedStories input.stories
      let originMs := deriveOriginMs stories uiOriginMs todayMs sprintLenDays
      let lastStoryMs := lastStoryMsF stories originMs
      let baseHorizonMs := max todayMs (max targetDateMs lastStoryMs)
      let horizonMs := baseHorizonMs + sprintLenMs * 6
      if 0 < sprintLenMs then
        let sprints :=
          buildSprints stories originMs sprintLenMs todayMs
            (sprintCount originMs horizonMs sprintLenMs)
        some (assembleModel sprintLenDays originMs targetDateMs todayMs sprintFTE sprints)
      else if originMs > horizonMs then
        some (assembleModel sprintLenDays originMs targetDateMs todayMs sprintFTE [])
      else none

/-- `recomputeProjectionWithFTE`: recompute the forecast cone from the
stored anchor and `avgVelPerFTE` for a new FTE value, guarding exactly as
the source does and returning the model unchanged when any guard fails. -/
def recomputeProjectionWithFTE (model : BurnupModel) (sprintFTE : ℚ) : BurnupModel :=
  let safeFte : ℚ := max 0 sprintFTE
  if model.sprints = [] then model
  else if ¬ model.projection.hasSignal then model
  else
    match model.projection.fromSprintIndex, model.projection.fromTimeMs,
        model.projection.fromDone, model.projection.avgVelPerFTE with
    | some _, some fromTimeMs, some fromDone, some avgVelPerFTE =>
      if avgVelPerFTE ≤ 0 then model
      else
        let sprintLenMs := model.sprintLengthDays * DAY_MS
        let fte : ℚ := max (1/10) (if safeFte = 0 then 0 else safeFte)
        let projectedDonePerSprint := avgVelPerFTE * fte
        if projectedDonePerSprint ≤ 0 then
          { model with
            projection :=
              { model.projection with
                projectedDonePerSprint := none
                projectedCompletionMs := none
                projectedCompletionEarlyMs := none
                projectedCompletionLateMs := none }
            isOnTrack := none
            daysDeltaFromTarget := none }
        else
          let remaining : ℕ := model.latestScope - fromDone
          let cel : ℚ × ℚ × ℚ :=
            if remaining = 0 then ((fromTimeMs : ℚ), (fromTimeMs : ℚ), (fromTimeMs : ℚ))
            else
              let projectedSprints := (remaining : ℚ) / projectedDonePerSprint
              let c := (fromTimeMs : ℚ) + projectedSprints * (sprintLenMs : ℚ)
              let fastDonePerSprint := projectedDonePerSprint * (6/5)
              let slowDonePerSprint := projectedDonePerSprint * (4/5)
              let e :=
                if 0 < fastDonePerSprint then
                  (fromTimeMs : ℚ) + ((remaining : ℚ) / fastDonePerSprint) * (sprintLenMs : ℚ)
                else c
              let l :=
                if 0 < slowDonePerSprint then
                  (fromTimeMs : ℚ) + ((remaining : ℚ) / slowDonePerSprint) * (sprintLenMs : ℚ)
                else c
              (c, e, l)
          let newProjection :=
            { model.projection with
              hasSignal := true
              projectedDonePerSprint := some projectedDonePerSprint
              projectedCompletionMs := some cel.1
              projectedCompletionEarlyMs := some cel.2.1
              projectedCompletionLateMs := some cel.2.2 }
          match model.targetDateMs with
          | some tgt =>
            let dd := jsRound ((cel.1 - (tgt : ℚ)) / (DAY_MS : ℚ))
            { model with
              projection := newProjection
              isOnTrack := some (decide (dd ≤ 0))
              daysDeltaFromTarget := some dd }
          | none =>
            { model with
              projection := newProjection
              isOnTrack := none
              daysDeltaFromTarget := none }
    | _, _, _, _ => model

/-! ### Helper lemmas -/

/-- Readable abbreviations for the builder's derived quantities. -/
def sprintLenDaysOf (input : BuildBurnupInput) : ℤ := input.sprintLengthDays.getD 14

/-- Sprint length in milliseconds. -/
def sprintLenMsOf (input : BuildBurnupInput) : ℤ := sprintLenDaysOf input * DAY_MS

/-- The normalised stories of an input. -/
def storiesOf (input : BuildBurnupInput) : List NormalisedIssue :=
  normalisedStories input.stories

/-- The derived origin of an input, given the resolved `todayMs`. -/
def originOf (input : BuildBurnupInput) (today : ℤ) : ℤ :=
  deriveOriginMs (storiesOf input) (parseISODate input.sprintStartISO) today
    (sprintLenDaysOf input)

/-- The bucketing horizon of an input. -/
def horizonOf (input : BuildBurnupInput) (tgt today : ℤ) : ℤ :=
  max today (max tgt (lastStoryMsF (storiesOf input) (originOf input today))) +
    sprintLenMsOf input * 6

lemma length_filter_le_of_imp {α : Type} (l : List α) (p q : α → Bool)
    (h : ∀ a, p a = true → q a = true) :
    (l.filter p).length ≤ (l.filter q).length := by
  induction l with
  | nil => simp
  | cons a t ih =>
    by_cases hpa : p a = true
    · simp [List.filter_cons, hpa, h a hpa, Nat.succ_le_succ ih]
    · simp only [List.filter_cons, Bool.not_eq_true] at hpa ⊢
      rw [hpa]
      by_cases hqa : q a = true
      · simp only [hqa, if_true, if_false, List.length_cons]
        exact Nat.le_succ_of_le ih
      · simp only [Bool.not_eq_true] at hqa
        simp only [hqa, if_false]
        exact ih

lemma scopeAtEndF_mono (stories : List NormalisedIssue) {e1 e2 : ℤ} (h : e1 ≤ e2) :
    scopeAtEndF stories e1 ≤ scopeAtEndF stories e2 := by
  apply length_filter_le_of_imp
  intro a ha
  simp only [Bool.and_eq_true, decide_eq_true_eq] at ha ⊢
  exact ⟨lt_of_lt_of_le ha.1 h, ha.2⟩

lemma doneByEndRawF_mono (stories : List NormalisedIssue) {e1 e2 : ℤ} (h : e1 ≤ e2) :
    doneByEndRawF stories e1 ≤ doneByEndRawF stories e2 := by
  apply length_filter_le_of_imp
  intro a ha
  simp only [Bool.and_eq_true, decide_eq_true_eq] at ha ⊢
  obtain ⟨⟨⟨h1, h2⟩, h3⟩, h4⟩ := ha
  refine ⟨⟨⟨h1, ?_⟩, lt_of_lt_of_le h3 h⟩, h4⟩
  cases hr : a.resolvedMs with
  | none => rw [hr] at h2; exact h2
  | some r =>
    rw [hr] at h2
    simp only [decide_eq_true_eq] at h2 ⊢
    exact lt_of_lt_of_le h2 h

lemma cumDoneEndF_mono (stories : List NormalisedIssue) {e1 e2 : ℤ} (h : e1 ≤ e2) :
    cumDoneEndF stories e1 ≤ cumDoneEndF stories e2 := by
  unfold cumDoneEndF
  exact min_le_min (doneByEndRawF_mono stories h) (scopeAtEndF_mono stories h)

lemma buildSprints_length (stories : List NormalisedIssue) (o len t : ℤ) (n : ℕ) :
    (buildSprints stories o len t n).length = n := by
  simp [buildSprints]

lemma buildSprints_getD (stories : List NormalisedIssue) (o len t : ℤ) {n i : ℕ}
    (h : i < n) :
    (buildSprints stories o len t n).getD i default = mkSprint stories o len t i := by
  simp [buildSprints, List.getD, List.getElem?_map, List.getElem?_range, h]

lemma assembleModel_sprints (a b c d : ℤ) (e : ℚ) (sp : List SprintSummary) :
    (assembleModel a b c d e sp).sprints = sp := rfl

lemma assembleModel_projection (a b c d : ℤ) (e : ℚ) (sp : List SprintSummary) :
    (assembleModel a b c d e sp).projection =
      computeProjection sp (a * DAY_MS) e
        (match sp with
         | [] => 0
         | _ => (sp.getLastD default).scopeAtEnd)
        (computeScopeAtDate sp c) c := rfl

lemma assembleModel_latestScope (a b c d : ℤ) (e : ℚ) (sp : List SprintSummary) :
    (assembleModel a b c d e sp).latestScope =
      match sp with
      | [] => 0
      | _ => (sp.getLastD default).scopeAtEnd := rfl

lemma assembleModel_targetScope (a b c d : ℤ) (e : ℚ) (sp : List SprintSummary) :
    (assembleModel a b c d e sp).targetScope = computeScopeAtDate sp c := rfl

lemma assembleModel_originMs (a b c d : ℤ) (e : ℚ) (sp : List SprintSummary) :
    (assembleModel a b c d e sp).originMs = some b := rfl

lemma assembleModel_targetDateMs (a b c d : ℤ) (e : ℚ) (sp : List SprintSummary) :
    (assembleModel a b c d e sp).targetDateMs = some c := rfl

lemma assembleModel_sprintLengthDays (a b c d : ℤ) (e : ℚ) (sp : List SprintSummary) :
    (assembleModel a b c d e sp).sprintLengthDays = a := rfl

/-- On the main path (target date parses, `todayMs` resolves, positive
sprint length) `buildBurnupModel` assembles the model from the generated
sprint buckets. -/
lemma buildBurnupModel_main (input : BuildBurnupInput) (tgt today : ℤ)
    (ht : parseISODate input.devCompletionISO = some tgt)
    (hd : resolveTodayMs input = some today)
    (hlen : 0 < sprintLenMsOf input) :
    buildBurnupModel input =
      some (assembleModel (sprintLenDaysOf input) (originOf input today) tgt today
        (max 0 input.sprintFTE)
        (buildSprints (storiesOf input) (originOf input today) (sprintLenMsOf input) today
          (sprintCount (originOf input today) (horizonOf input tgt today)
            (sprintLenMsOf input)))) := by
  unfold buildBurnupModel
  rw [ht, hd]
  simp only [sprintLenMsOf, sprintLenDaysOf, storiesOf, originOf, horizonOf] at *
  rw [if_pos hlen]

/-- Every model the builder returns is either an assembled model with no
sprints, the empty model, or — on the main path — the model assembled from
the bucketing loop's output with a positive sprint length. -/
lemma buildBurnupModel_shape (input : BuildBurnupInput) (m : BurnupModel)
    (hm : buildBurnupModel input = some m) :
    (m.sprints = [] ∧ m.projection = emptyProjection) ∨
    ∃ tgt today, parseISODate input.devCompletionISO = some tgt ∧
      resolveTodayMs input = some today ∧ 0 < sprintLenMsOf input ∧
      m = assembleModel (sprintLenDaysOf input) (originOf input today) tgt today
        (max 0 input.sprintFTE)
        (buildSprints (storiesOf input) (originOf input today) (sprintLenMsOf input) today
          (sprintCount (originOf input today) (horizonOf input tgt today)
            (sprintLenMsOf input))) := by
  cases ht : parseISODate input.devCompletionISO with
  | none =>
    left
    simp only [buildBurnupModel, ht, Option.some.injEq] at hm
    rw [← hm]
    exact ⟨rfl, rfl⟩
  | some tgt =>
    cases hd : resolveTodayMs input with
    | none =>
      simp only [buildBurnupModel, ht, hd] at hm
      exact Option.noConfusion hm
    | some today =>
      by_cases hlen : 0 < sprintLenMsOf input
      · right
        refine ⟨tgt, today, rfl, rfl, hlen, ?_⟩
        rw [buildBurnupModel_main input tgt today ht hd hlen] at hm
        simp only [Option.some.injEq] at hm
        rw [← hm]
      · left
        simp only [buildBurnupModel, ht, hd, sprintLenMsOf, sprintLenDaysOf] at hm hlen
        rw [if_neg hlen] at hm
        by_cases hoh : deriveOriginMs (normalisedStories input.stories)
            (parseISODate input.sprintStartISO) today (input.sprintLengthDays.getD 14) >
            max today (max tgt (lastStoryMsF (normalisedStories input.stories)
              (deriveOriginMs (normalisedStories input.stories)
                (parseISODate input.sprintStartISO) today
                (input.sprintLengthDays.getD 14)))) +
              input.sprintLengthDays.getD 14 * DAY_MS * 6
        · rw [if_pos hoh, Option.some.injEq] at hm
          rw [← hm]
          constructor
          · rw [assembleModel_sprints]
          · rw [assembleModel_projection]
            rfl
        · rw [if_neg hoh] at hm
          exact absurd hm (by simp)

/-- Sprint-sequence-only corollary of `buildBurnupModel_shape`. -/
lemma buildBurnupModel_sprints_shape (input : BuildBurnupInput) (m : BurnupModel)
    (hm : buildBurnupModel input = some m) :
    m.sprints = [] ∨
    ∃ tgt today, parseISODate input.devCompletionISO = some tgt ∧
      resolveTodayMs input = some today ∧ 0 < sprintLenMsOf input ∧
      m.sprints = buildSprints (storiesOf input) (originOf input today)
        (sprintLenMsOf input) today
        (sprintCount (originOf input today) (horizonOf input tgt today)
          (sprintLenMsOf input)) := by
  rcases buildBurnupModel_shape input m hm with ⟨h, _⟩ | ⟨tgt, today, ht, hd, hlen, hme⟩
  · exact Or.inl h
  · exact Or.inr ⟨tgt, today, ht, hd, hlen, by rw [hme, assembleModel_sprints]⟩

/-! ### C5 -/

/-- C5: an unparseable target date short-circuits to an "empty" model —
the builder still returns a model (it does not fail), with no sprints, zero
target/latest scope, zero done stories, `hasAnyDone = false`, a projection
with `hasSignal = false` and every field null, and `isOnTrack = null`. -/
theorem c5_invalid_target_yields_empty_model (input : BuildBurnupInput)
    (h : parseISODate input.devCompletionISO = none) :
    ∃ m, buildBurnupModel input = some m ∧
      m.sprints = [] ∧ m.targetScope = 0 ∧ m.latestScope = 0 ∧
      m.totalDoneStories = 0 ∧ m.hasAnyDone = false ∧
      m.projection.hasSignal = false ∧
      m.projection.fromSprintIndex = none ∧ m.projection.fromTimeMs = none ∧
      m.projection.fromDone = none ∧ m.projection.projectedDonePerSprint = none ∧
      m.projection.avgVelPerFTE = none ∧ m.projection.projectedCompletionMs = none ∧
      m.projection.projectedCompletionEarlyMs = none ∧
      m.projection.projectedCompletionLateMs = none ∧
      m.projection.requiredFTEToHitTarget = none ∧
      m.projection.suggestedMaxFTE = none ∧
      m.projection.remainingStoriesFromAnchor = none ∧
      m.projection.sprintsRemainingToTarget = none ∧
      m.projection.requiredStoriesPerSprintToHitTarget = none ∧
      m.projection.recentStoriesPerSprint = none ∧
      m.isOnTrack = none := by
  refine ⟨emptyModel (input.sprintLengthDays.getD 14) (parseISODate input.sprintStartISO)
    none (resolveTodayMs input), ?_, ?_⟩
  · simp only [buildBurnupModel, h]
  · exact ⟨rfl, rfl, rfl, rfl, rfl, rfl, rfl, rfl, rfl, rfl, rfl, rfl, rfl, rfl, rfl,
      rfl, rfl, rfl, rfl, rfl, rfl⟩

/-- Concrete input for the C5 witness: malformed target date string. -/
def c5in : BuildBurnupInput :=
  { stories := []
    sprintStartISO := "2025-01-06"
    devCompletionISO := "not-a-date"
    sprintFTE := 5
    todayISO := some "2025-02-01"
    sprintLengthDays := none
    nowMs := 0 }

/-- Witness for C5 at a concrete malformed target date. -/
theorem c5_invalid_target_yields_empty_model_witness :
    ∃ m, buildBurnupModel c5in = some m ∧
      m.sprints = [] ∧ m.targetScope = 0 ∧ m.latestScope = 0 ∧
      m.totalDoneStories = 0 ∧ m.hasAnyDone = false ∧
      m.projection.hasSignal = false ∧
      m.projection.fromSprintIndex = none ∧ m.projection.fromTimeMs = none ∧
      m.projection.fromDone = none ∧ m.projection.projectedDonePerSprint = none ∧
      m.projection.avgVelPerFTE = none ∧ m.projection.projectedCompletionMs = none ∧
      m.projection.projectedCompletionEarlyMs = none ∧
      m.projection.projectedCompletionLateMs = none ∧
      m.projection.requiredFTEToHitTarget = none ∧
      m.projection.suggestedMaxFTE = none ∧
      m.projection.remainingStoriesFromAnchor = none ∧
      m.projection.sprintsRemainingToTarget = none ∧
      m.projection.requiredStoriesPerSprintToHitTarget = none ∧
      m.projection.recentStoriesPerSprint = none ∧
      m.isOnTrack = none :=
  c5_invalid_target_yields_empty_model c5in (by decide)

/-! ### C1 -/

/-- C1: in every built model, each sprint's cumulative done equals
`min(rawDoneByEnd, scopeAtEnd)`, is bounded by `scopeAtEnd`, and the
cumulative-done sequence is monotonically non-decreasing. -/
theorem c1_cum_done_clamped_and_monotone (input : BuildBurnupInput) (m : BurnupModel)
    (hm : buildBurnupModel input = some m) (i : ℕ) (hi : i < m.sprints.length) :
    (m.sprints.getD i default).cumDoneEnd =
      min (doneByEndRawF (storiesOf input) (m.sprints.getD i default).endMs)
        (scopeAtEndF (storiesOf input) (m.sprints.getD i default).endMs) ∧
    (m.sprints.getD i default).cumDoneEnd ≤ (m.sprints.getD i default).scopeAtEnd ∧
    ∀ j, j + 1 = i →
      (m.sprints.getD j default).cumDoneEnd ≤ (m.sprints.getD i default).cumDoneEnd := by
  rcases buildBurnupModel_sprints_shape input m hm with hnil | ⟨tgt, today, _, _, hlen, hsp⟩
  · rw [hnil] at hi
    exact absurd hi (by simp)
  · rw [hsp] at hi ⊢
    rw [buildSprints_length] at hi
    rw [buildSprints_getD _ _ _ _ hi]
    refine ⟨rfl, Nat.min_le_right _ _, ?_⟩
    intro j hj
    have hjlt : j < sprintCount (originOf input today) (horizonOf input tgt today)
        (sprintLenMsOf input) := by omega
    rw [buildSprints_getD _ _ _ _ hjlt]
    show cumDoneEndF _ _ ≤ cumDoneEndF _ _
    apply cumDoneEndF_mono
    have : (j : ℤ) * sprintLenMsOf input + sprintLenMsOf input ≤
        (i : ℤ) * sprintLenMsOf input + sprintLenMsOf input := by
      have hji : (j : ℤ) + 1 ≤ (i : ℤ) := by exact_mod_cast Nat.le_of_eq hj
      nlinarith [hlen]
    linarith

/-! ### A concrete example input shared by several witnesses

One story created 2025-01-01 (epoch day 20089), resolved 2025-01-20
(epoch day 20108, a Monday), status category Done; target 2025-02-01
(epoch day 20120); today 2025-01-25 (epoch day 20113); default sprint
length. -/

/-- Concrete example input. -/
def exIn : BuildBurnupInput :=
  { stories := [⟨.parsed (20089 * DAY_MS), .parsed (20108 * DAY_MS), some .done, none⟩]
    sprintStartISO := "2025-01-01"
    devCompletionISO := "2025-02-01"
    sprintFTE := 1
    todayISO := some "2025-01-25"
    sprintLengthDays := none
    nowMs := 0 }

/-- 2025-02-01 as a UTC-midnight timestamp. -/
def exTgt : ℤ := 20120 * DAY_MS

/-- 2025-01-25 as a UTC-midnight timestamp. -/
def exToday : ℤ := 20113 * DAY_MS

/-- The model the builder produces for `exIn`. -/
def exModel : BurnupModel :=
  assembleModel (sprintLenDaysOf exIn) (originOf exIn exToday) exTgt exToday
    (max 0 exIn.sprintFTE)
    (buildSprints (storiesOf exIn) (originOf exIn exToday) (sprintLenMsOf exIn) exToday
      (sprintCount (originOf exIn exToday) (horizonOf exIn exTgt exToday)
        (sprintLenMsOf exIn)))

lemma exIn_build : buildBurnupModel exIn = some exModel :=
  buildBurnupModel_main exIn exTgt exToday (by decide) (by decide) (by decide)

lemma exModel_sprints_length : exModel.sprints.length = 8 := by
  unfold exModel
  rw [assembleModel_sprints, buildSprints_length]
  decide

/-- Witness for C1 at the concrete input, sprint index 1. -/
theorem c1_cum_done_clamped_and_monotone_witness :
    (exModel.sprints.getD 1 default).cumDoneEnd =
      min (doneByEndRawF (storiesOf exIn) (exModel.sprints.getD 1 default).endMs)
        (scopeAtEndF (storiesOf exIn) (exModel.sprints.getD 1 default).endMs) ∧
    (exModel.sprints.getD 1 default).cumDoneEnd ≤
      (exModel.sprints.getD 1 default).scopeAtEnd ∧
    ∀ j, j + 1 = 1 →
      (exModel.sprints.getD j default).cumDoneEnd ≤
        (exModel.sprints.getD 1 default).cumDoneEnd :=
  c1_cum_done_clamped_and_monotone exIn exModel exIn_build 1
    (by rw [exModel_sprints_length]; decide)

/-! ### `find?` characterization, for `computeScopeAtDate` -/

lemma find?_eq_some_getD_of_first {α : Type} [Inhabited α] (l : List α) (p : α → Bool)
    (i : ℕ) (hi : i < l.length) (h1 : p (l.getD i default) = true)
    (h2 : ∀ j, j < i → p (l.getD j default) = false) :
    l.find? p = some (l.getD i default) := by
  induction l generalizing i with
  | nil => simp at hi
  | cons a t ih =>
    cases i with
    | zero =>
      simp only [List.getD_cons_zero] at h1 ⊢
      rw [List.find?_cons, h1]
    | succ k =>
      have h0 : p a = false := by
        have := h2 0 (Nat.succ_pos k)
        simpa using this
      rw [List.find?_cons, h0]
      simp only [List.getD_cons_succ]
      simp only [List.length_cons, Nat.succ_lt_succ_iff] at hi
      refine ih k hi ?_ ?_
      · simpa using h1
      · intro j hj
        have := h2 (j + 1) (Nat.succ_lt_succ hj)
        simpa using this

lemma find?_eq_none_of_getD {α : Type} [Inhabited α] (l : List α) (p : α → Bool)
    (h : ∀ j, j < l.length → p (l.getD j default) = false) :
    l.find? p = none := by
  induction l with
  | nil => rfl
  | cons a t ih =>
    have h0 : p a = false := by simpa using h 0 (by simp)
    rw [List.find?_cons, h0]
    refine ih ?_
    intro j hj
    have := h (j + 1) (by simpa using Nat.succ_lt_succ hj)
    simpa using this

/-- `computeScopeAtDate` picks the scope of the first sprint whose end is on
or after the date. -/
lemma computeScopeAtDate_hit (sprints : List SprintSummary) (d : ℤ) (i : ℕ)
    (hi : i < sprints.length) (hhit : d ≤ (sprints.getD i default).endMs)
    (hb : ∀ j, j < i → (sprints.getD j default).endMs < d) :
    computeScopeAtDate sprints d = (sprints.getD i default).scopeAtEnd := by
  have hfind : sprints.find? (fun s => decide (d ≤ s.endMs)) =
      some (sprints.getD i default) := by
    refine find?_eq_some_getD_of_first sprints _ i hi (by simpa using hhit) ?_
    intro j hj
    simpa using not_le.mpr (hb j hj)
  cases sprints with
  | nil => simp at hi
  | cons a t =>
    simp only [computeScopeAtDate]
    rw [hfind]

/-- `computeScopeAtDate` falls back to the last sprint when no sprint end
reaches the date. -/
lemma computeScopeAtDate_miss (sprints : List SprintSummary) (d : ℤ)
    (h : ∀ j, j < sprints.length → (sprints.getD j default).endMs < d) :
    sprints ≠ [] → computeScopeAtDate sprints d = (sprints.getLastD default).scopeAtEnd := by
  intro hne
  have hfind : sprints.find? (fun s => decide (d ≤ s.endMs)) = none := by
    refine find?_eq_none_of_getD sprints _ ?_
    intro j hj
    simpa using not_le.mpr (h j hj)
  cases sprints with
  | nil => exact absurd rfl hne
  | cons a t =>
    simp only [computeScopeAtDate]
    rw [hfind]

/-! ### C8 -/

/-- C8: in every non-empty built model, `latestScope` is the last sprint's
`scopeAtEnd`, and `targetScope` is the `scopeAtEnd` of the first sprint
whose end reaches the target date, or of the last sprint when none does. -/
theorem c8_latest_and_target_scope (input : BuildBurnupInput) (m : BurnupModel)
    (hm : buildBurnupModel input = some m) (hne : m.sprints ≠ []) (tgt : ℤ)
    (htgt : m.targetDateMs = some tgt) :
    m.latestScope = (m.sprints.getLastD default).scopeAtEnd ∧
    (∀ i, i < m.sprints.length → tgt ≤ (m.sprints.getD i default).endMs →
      (∀ j, j < i → (m.sprints.getD j default).endMs < tgt) →
      m.targetScope = (m.sprints.getD i default).scopeAtEnd) ∧
    ((∀ j, j < m.sprints.length → (m.sprints.getD j default).endMs < tgt) →
      m.targetScope = (m.sprints.getLastD default).scopeAtEnd) := by
  rcases buildBurnupModel_shape input m hm with ⟨h, _⟩ | ⟨tgt', today, _, _, _, hme⟩
  · exact absurd h hne
  · have htgt' : tgt = tgt' := by
      rw [hme, assembleModel_targetDateMs] at htgt
      exact (Option.some.inj htgt).symm
    subst htgt'
    subst hme
    rw [assembleModel_sprints] at hne
    simp only [assembleModel_sprints, assembleModel_latestScope, assembleModel_targetScope]
    refine ⟨?_, ?_, ?_⟩
    · cases hsp : buildSprints (storiesOf input) (originOf input today) (sprintLenMsOf input)
          today (sprintCount (originOf input today) (horizonOf input tgt today)
            (sprintLenMsOf input)) with
      | nil => exact absurd hsp hne
      | cons a t => trivial
    · intro i hi hhit hb
      exact computeScopeAtDate_hit _ tgt i hi hhit hb
    · intro h
      exact computeScopeAtDate_miss _ tgt h hne

/-- Witness for C8 at the concrete input. -/
theorem c8_latest_and_target_scope_witness :
    exModel.latestScope = (exModel.sprints.getLastD default).scopeAtEnd ∧
    (∀ i, i < exModel.sprints.length → exTgt ≤ (exModel.sprints.getD i default).endMs →
      (∀ j, j < i → (exModel.sprints.getD j default).endMs < exTgt) →
      exModel.targetScope = (exModel.sprints.getD i default).scopeAtEnd) ∧
    ((∀ j, j < exModel.sprints.length → (exModel.sprints.getD j default).endMs < exTgt) →
      exModel.targetScope = (exModel.sprints.getLastD default).scopeAtEnd) :=
  c8_latest_and_target_scope exIn exModel exIn_build
    (List.ne_nil_of_length_pos (by rw [exModel_sprints_length]; decide)) exTgt rfl

/-! ### Projection-engine lemmas -/

lemma lastClosedIndex_lt_length {l : List SprintSummary} {i : ℕ}
    (h : lastClosedIndex l = some i) : i < l.length := by
  induction l generalizing i with
  | nil => simp [lastClosedIndex] at h
  | cons s rest ih =>
    simp only [lastClosedIndex] at h
    cases hr : lastClosedIndex rest with
    | some j =>
      rw [hr] at h
      obtain rfl := Option.some.inj h
      exact Nat.succ_lt_succ (ih hr)
    | none =>
      rw [hr] at h
      by_cases hc : s.isClosed
      · rw [if_pos hc] at h
        obtain rfl := Option.some.inj h
        simp
      · rw [if_neg hc] at h
        exact Option.noConfusion h

lemma lastClosedIndex_closed {l : List SprintSummary} {i : ℕ}
    (h : lastClosedIndex l = some i) : (l.getD i default).isClosed = true := by
  induction l generalizing i with
  | nil => simp [lastClosedIndex] at h
  | cons s rest ih =>
    simp only [lastClosedIndex] at h
    cases hr : lastClosedIndex rest with
    | some j =>
      rw [hr] at h
      obtain rfl := Option.some.inj h
      simpa using ih hr
    | none =>
      rw [hr] at h
      by_cases hc : s.isClosed
      · rw [if_pos hc] at h
        obtain rfl := Option.some.inj h
        simpa using hc
      · rw [if_neg hc] at h
        exact Option.noConfusion h

lemma getD_eq_of_get? {l : List SprintSummary} {i : ℕ} {s : SprintSummary}
    (h : l.get? i = some s) : l.getD i default = s := by
  induction l generalizing i with
  | nil => simp at h
  | cons a t ih =>
    cases i with
    | zero => simpa using h
    | succ k =>
      simp only [List.get?_cons_succ] at h
      simpa using ih h

lemma get?_eq_some_getD {l : List SprintSummary} {i : ℕ} (h : i < l.length) :
    l.get? i = some (l.getD i default) := by
  induction l generalizing i with
  | nil => simp at h
  | cons a t ih =>
    cases i with
    | zero => simp
    | succ k =>
      simp only [List.length_cons, Nat.succ_lt_succ_iff] at h
      simpa using ih h

/-- Every sample collected by the velocity loop is positive. -/
lemma velSamplesGo_pos {sprints : List SprintSummary} {fte : ℚ} (hf : 0 < fte) :
    ∀ i taken got x, x ∈ velSamplesGo sprints fte i taken got → 0 < x := by
  intro i
  induction i with
  | zero =>
    intro taken got x hx
    simp only [velSamplesGo] at hx
    split at hx
    · simp at hx
    · split at hx
      · simp at hx
      · split at hx
        · split at hx
          next hd =>
            simp only [List.mem_cons, List.not_mem_nil, or_false] at hx
            subst hx
            exact div_pos (by exact_mod_cast hd) hf
          next => simp at hx
        · simp at hx
  | succ j ih =>
    intro taken got x hx
    simp only [velSamplesGo] at hx
    split at hx
    · simp at hx
    · split at hx
      · simp at hx
      · split at hx
        · split at hx
          next hd =>
            simp only [List.mem_cons] at hx
            rcases hx with rfl | hx
            · exact div_pos (by exact_mod_cast hd) hf
            · exact ih _ _ x hx
          next => exact ih _ _ x hx
        · exact ih _ _ x hx

lemma fteClamp_pos (q : ℚ) : 0 < max (1/10) q :=
  lt_of_lt_of_le (by norm_num) (le_max_left _ _)

lemma samples_avg_pos {sprints : List SprintSummary} {fte : ℚ} (hf : 0 < fte) {lci : ℕ}
    (hsam : velSamplesGo sprints fte lci 0 0 ≠ []) :
    0 < (velSamplesGo sprints fte lci 0 0).sum /
      ((velSamplesGo sprints fte lci 0 0).length : ℚ) := by
  refine div_pos ?_ ?_
  · exact List.sum_pos _ (fun x hx => velSamplesGo_pos hf lci 0 0 x hx) hsam
  · exact_mod_cast List.length_pos.mpr hsam

/-- `computeProjection` with no closed sprint (or no sprints) is the empty
projection. -/
lemma computeProjection_none (sprints : List SprintSummary) (sprintLenMs : ℤ)
    (sprintFTE : ℚ) (latestScope targetScope : ℕ) (targetDateMs : ℤ)
    (hlci : lastClosedIndex sprints = none) :
    computeProjection sprints sprintLenMs sprintFTE latestScope targetScope targetDateMs =
      emptyProjection := by
  unfold computeProjection
  rw [hlci]

/-- `computeProjection` with an anchor but no velocity sample: no signal, no
forecast, but the anchor and target-arithmetic fields carry their values. -/
lemma computeProjection_noSample (sprints : List SprintSummary) (sprintLenMs : ℤ)
    (sprintFTE : ℚ) (latestScope targetScope : ℕ) (targetDateMs : ℤ) (lci : ℕ)
    (hlci : lastClosedIndex sprints = some lci)
    (hsam : velSamplesGo sprints (max (1/10) sprintFTE) lci 0 0 = []) :
    computeProjection sprints sprintLenMs sprintFTE latestScope targetScope targetDateMs =
      { hasSignal := false
        fromSprintIndex := some lci
        fromTimeMs := some (sprints.getD lci default).endMs
        fromDone := some (sprints.getD lci default).cumDoneEnd
        projectedDonePerSprint := none
        avgVelPerFTE := none
        projectedCompletionMs := none
        projectedCompletionEarlyMs := none
        projectedCompletionLateMs := none
        requiredFTEToHitTarget := none
        suggestedMaxFTE := none
        remainingStoriesFromAnchor := some (latestScope - (sprints.getD lci default).cumDoneEnd)
        sprintsRemainingToTarget :=
          (if targetDateMs > (sprints.getD lci default).endMs then
            (if 0 < ((targetDateMs - (sprints.getD lci default).endMs : ℤ) : ℚ) /
                (sprintLenMs : ℚ) then
              (some ⌈((targetDateMs - (sprints.getD lci default).endMs : ℤ) : ℚ) /
                (sprintLenMs : ℚ)⌉,
               some (if 0 < targetScope - (sprints.getD lci default).cumDoneEnd then
                  ((targetScope - (sprints.getD lci default).cumDoneEnd : ℕ) : ℚ) /
                    (((targetDateMs - (sprints.getD lci default).endMs : ℤ) : ℚ) /
                      (sprintLenMs : ℚ))
                else 0))
            else (none, none))
          else ((none : Option ℤ), (none : Option ℚ))).1
        requiredStoriesPerSprintToHitTarget :=
          (if targetDateMs > (sprints.getD lci default).endMs then
            (if 0 < ((targetDateMs - (sprints.getD lci default).endMs : ℤ) : ℚ) /
                (sprintLenMs : ℚ) then
              (some ⌈((targetDateMs - (sprints.getD lci default).endMs : ℤ) : ℚ) /
                (sprintLenMs : ℚ)⌉,
               some (if 0 < targetScope - (sprints.getD lci default).cumDoneEnd then
                  ((targetScope - (sprints.getD lci default).cumDoneEnd : ℕ) : ℚ) /
                    (((targetDateMs - (sprints.getD lci default).endMs : ℤ) : ℚ) /
                      (sprintLenMs : ℚ))
                else 0))
            else (none, none))
          else ((none : Option ℤ), (none : Option ℚ))).2
        recentStoriesPerSprint := avgStoriesLastNClosed sprints lci 2 } := by
  simp only [computeProjection, hlci]
  rw [if_pos hsam]

/-- `computeProjection` on the signal path: all anchor and forecast fields,
with the completion timestamps collapsing to the anchor when nothing
remains. -/
lemma computeProjection_signal (sprints : List SprintSummary) (sprintLenMs : ℤ)
    (sprintFTE : ℚ) (latestScope targetScope : ℕ) (targetDateMs : ℤ) (lci : ℕ)
    (p : BurnupProjection)
    (hp : computeProjection sprints sprintLenMs sprintFTE latestScope targetScope
      targetDateMs = p)
    (hlci : lastClosedIndex sprints = some lci)
    (hsam : velSamplesGo sprints (max (1/10) sprintFTE) lci 0 0 ≠ []) :
    p.hasSignal = true ∧
    p.fromSprintIndex = some lci ∧
    p.fromTimeMs = some (sprints.getD lci default).endMs ∧
    p.fromDone = some (sprints.getD lci default).cumDoneEnd ∧
    p.avgVelPerFTE = some ((velSamplesGo sprints (max (1/10) sprintFTE) lci 0 0).sum /
      ((velSamplesGo sprints (max (1/10) sprintFTE) lci 0 0).length : ℚ)) ∧
    p.projectedDonePerSprint = some
      (((velSamplesGo sprints (max (1/10) sprintFTE) lci 0 0).sum /
        ((velSamplesGo sprints (max (1/10) sprintFTE) lci 0 0).length : ℚ)) *
       max (1/10) sprintFTE) ∧
    p.remainingStoriesFromAnchor =
      some (latestScope - (sprints.getD lci default).cumDoneEnd) ∧
    (latestScope - (sprints.getD lci default).cumDoneEnd = 0 →
      p.projectedCompletionMs = some ((sprints.getD lci default).endMs : ℚ) ∧
      p.projectedCompletionEarlyMs = some ((sprints.getD lci default).endMs : ℚ) ∧
      p.projectedCompletionLateMs = some ((sprints.getD lci default).endMs : ℚ)) ∧
    (∀ r : ℕ, latestScope - (sprints.getD lci default).cumDoneEnd = r → r ≠ 0 →
      ∀ pd : ℚ, pd = ((velSamplesGo sprints (max (1/10) sprintFTE) lci 0 0).sum /
          ((velSamplesGo sprints (max (1/10) sprintFTE) lci 0 0).length : ℚ)) *
          max (1/10) sprintFTE →
      p.projectedCompletionMs =
        some (((sprints.getD lci default).endMs : ℚ) + (r : ℚ) / pd * (sprintLenMs : ℚ)) ∧
      p.projectedCompletionEarlyMs =
        some (((sprints.getD lci default).endMs : ℚ) +
          (r : ℚ) / (pd * (6/5)) * (sprintLenMs : ℚ)) ∧
      p.projectedCompletionLateMs =
        some (((sprints.getD lci default).endMs : ℚ) +
          (r : ℚ) / (pd * (4/5)) * (sprintLenMs : ℚ))) := by
  have hfte : (0 : ℚ) < max (1/10) sprintFTE := fteClamp_pos sprintFTE
  have havg := samples_avg_pos hfte hsam
  have hpd : 0 < ((velSamplesGo sprints (max (1/10) sprintFTE) lci 0 0).sum /
      ((velSamplesGo sprints (max (1/10) sprintFTE) lci 0 0).length : ℚ)) *
      max (1/10) sprintFTE := mul_pos havg hfte
  subst hp
  simp only [computeProjection, hlci]
  rw [if_neg hsam, if_neg (not_not_intro hpd)]
  by_cases hrem : latestScope - (sprints.getD lci default).cumDoneEnd = 0
  · rw [if_pos hrem]
    refine ⟨rfl, rfl, rfl, rfl, rfl, rfl, rfl, fun _ => ⟨rfl, rfl, rfl⟩, ?_⟩
    intro r hr hrne pd hpdeq
    exact absurd (hrem ▸ hr) (Ne.symm hrne)
  · rw [if_neg hrem]
    have hfast : 0 < (((velSamplesGo sprints (max (1/10) sprintFTE) lci 0 0).sum /
        ((velSamplesGo sprints (max (1/10) sprintFTE) lci 0 0).length : ℚ)) *
        max (1/10) sprintFTE) * (6/5 : ℚ) := by positivity
    have hslow : 0 < (((velSamplesGo sprints (max (1/10) sprintFTE) lci 0 0).sum /
        ((velSamplesGo sprints (max (1/10) sprintFTE) lci 0 0).length : ℚ)) *
        max (1/10) sprintFTE) * (4/5 : ℚ) := by positivity
    rw [if_pos hfast, if_pos hslow]
    refine ⟨rfl, rfl, rfl, rfl, rfl, rfl, rfl, fun h => absurd h hrem, ?_⟩
    intro r hr hrne pd hpdeq
    subst hpdeq
    rw [← hr]
    exact ⟨rfl, rfl, rfl⟩

/-- With a closed sprint at the anchor index, `avgStoriesLastNClosed` always
returns a value. -/
lemma avgStoriesLastNClosed_isSome {sprints : List SprintSummary} {lci : ℕ}
    (hlt : lci < sprints.length) (hc : (sprints.getD lci default).isClosed = true) :
    (avgStoriesLastNClosed sprints lci 2).isSome = true := by
  have hget := get?_eq_some_getD hlt
  cases lci with
  | zero =>
    simp only [avgStoriesLastNClosed, avgStoriesGo, hget, hc]
    simp
  | succ j =>
    simp only [avgStoriesLastNClosed, avgStoriesGo, hget, hc]
    simp

/-! ### C6 -/

/-- C6: an anchor exists but the 8-closed-sprint lookback has no sprint with
positive completions: `hasSignal = false`, the anchor, remaining,
sprints-to-target, required-rate and recent-rate fields are populated, and
all forecast fields are null. -/
theorem c6_anchor_without_sample_partial_fill (sprints : List SprintSummary)
    (sprintLenMs : ℤ) (sprintFTE : ℚ) (latestScope targetScope : ℕ) (targetDateMs : ℤ)
    (lci : ℕ) (hlci : lastClosedIndex sprints = some lci)
    (hsam : velSamplesGo sprints (max (1/10) sprintFTE) lci 0 0 = [])
    (htgt : (sprints.getD lci default).endMs < targetDateMs)
    (hlen : 0 < sprintLenMs) :
    (computeProjection sprints sprintLenMs sprintFTE latestScope targetScope
        targetDateMs).hasSignal = false ∧
    (computeProjection sprints sprintLenMs sprintFTE latestScope targetScope
        targetDateMs).fromSprintIndex = some lci ∧
    (computeProjection sprints sprintLenMs sprintFTE latestScope targetScope
        targetDateMs).fromTimeMs = some (sprints.getD lci default).endMs ∧
    (computeProjection sprints sprintLenMs sprintFTE latestScope targetScope
        targetDateMs).fromDone = some (sprints.getD lci default).cumDoneEnd ∧
    (computeProjection sprints sprintLenMs sprintFTE latestScope targetScope
        targetDateMs).remainingStoriesFromAnchor =
      some (latestScope - (sprints.getD lci default).cumDoneEnd) ∧
    (computeProjection sprints sprintLenMs sprintFTE latestScope targetScope
        targetDateMs).sprintsRemainingToTarget =
      some ⌈((targetDateMs - (sprints.getD lci default).endMs : ℤ) : ℚ) /
        (sprintLenMs : ℚ)⌉ ∧
    (computeProjection sprints sprintLenMs sprintFTE latestScope targetScope
        targetDateMs).requiredStoriesPerSprintToHitTarget =
      some (if 0 < targetScope - (sprints.getD lci default).cumDoneEnd then
          ((targetScope - (sprints.getD lci default).cumDoneEnd : ℕ) : ℚ) /
            (((targetDateMs - (sprints.getD lci default).endMs : ℤ) : ℚ) /
              (sprintLenMs : ℚ))
        else 0) ∧
    ((computeProjection sprints sprintLenMs sprintFTE latestScope targetScope
        targetDateMs).recentStoriesPerSprint).isSome = true ∧
    (computeProjection sprints sprintLenMs sprintFTE latestScope targetScope
        targetDateMs).avgVelPerFTE = none ∧
    (computeProjection sprints sprintLenMs sprintFTE latestScope targetScope
        targetDateMs).projectedDonePerSprint = none ∧
    (computeProjection sprints sprintLenMs sprintFTE latestScope targetScope
        targetDateMs).projectedCompletionMs = none ∧
    (computeProjection sprints sprintLenMs sprintFTE latestScope targetScope
        targetDateMs).projectedCompletionEarlyMs = none ∧
    (computeProjection sprints sprintLenMs sprintFTE latestScope targetScope
        targetDateMs).projectedCompletionLateMs = none ∧
    (computeProjection sprints sprintLenMs sprintFTE latestScope targetScope
        targetDateMs).requiredFTEToHitTarget = none ∧
    (computeProjection sprints sprintLenMs sprintFTE latestScope targetScope
        targetDateMs).suggestedMaxFTE = none := by
  have hsf : (0 : ℚ) <
      ((targetDateMs - (sprints.getD lci default).endMs : ℤ) : ℚ) / (sprintLenMs : ℚ) := by
    apply div_pos
    · exact_mod_cast Int.sub_pos.mpr htgt
    · exact_mod_cast hlen
  rw [computeProjection_noSample sprints sprintLenMs sprintFTE latestScope targetScope
    targetDateMs lci hlci hsam]
  refine ⟨rfl, rfl, rfl, rfl, rfl, ?_, ?_, ?_, rfl, rfl, rfl, rfl, rfl, rfl, rfl⟩
  · simp only [if_pos htgt, if_pos hsf]
  · simp only [if_pos htgt, if_pos hsf]
  · exact avgStoriesLastNClosed_isSome (lastClosedIndex_lt_length hlci)
      (lastClosedIndex_closed hlci)

/-- A one-closed-sprint history with zero completions, for the C6 witness. -/
def c6sprints : List SprintSummary :=
  [{ index := 0, startMs := 0, endMs := 14 * DAY_MS, scopeAtEnd := 5, scopeAtStart := 0,
     doneThisSprint := 0, cumDoneEnd := 0, isClosed := true }]

/-- Witness for C6 at a concrete one-sprint history. -/
theorem c6_anchor_without_sample_partial_fill_witness :
    (computeProjection c6sprints (14 * DAY_MS) 1 5 5 (28 * DAY_MS)).hasSignal = false ∧
    (computeProjection c6sprints (14 * DAY_MS) 1 5 5 (28 * DAY_MS)).fromSprintIndex = some 0 ∧
    (computeProjection c6sprints (14 * DAY_MS) 1 5 5
        (28 * DAY_MS)).fromTimeMs = some (c6sprints.getD 0 default).endMs ∧
    (computeProjection c6sprints (14 * DAY_MS) 1 5 5
        (28 * DAY_MS)).fromDone = some (c6sprints.getD 0 default).cumDoneEnd ∧
    (computeProjection c6sprints (14 * DAY_MS) 1 5 5
        (28 * DAY_MS)).remainingStoriesFromAnchor =
      some (5 - (c6sprints.getD 0 default).cumDoneEnd) ∧
    (computeProjection c6sprints (14 * DAY_MS) 1 5 5
        (28 * DAY_MS)).sprintsRemainingToTarget =
      some ⌈((28 * DAY_MS - (c6sprints.getD 0 default).endMs : ℤ) : ℚ) /
        ((14 * DAY_MS : ℤ) : ℚ)⌉ ∧
    (computeProjection c6sprints (14 * DAY_MS) 1 5 5
        (28 * DAY_MS)).requiredStoriesPerSprintToHitTarget =
      some (if 0 < 5 - (c6sprints.getD 0 default).cumDoneEnd then
          ((5 - (c6sprints.getD 0 default).cumDoneEnd : ℕ) : ℚ) /
            (((28 * DAY_MS - (c6sprints.getD 0 default).endMs : ℤ) : ℚ) /
              ((14 * DAY_MS : ℤ) : ℚ))
        else 0) ∧
    ((computeProjection c6sprints (14 * DAY_MS) 1 5 5
        (28 * DAY_MS)).recentStoriesPerSprint).isSome = true ∧
    (computeProjection c6sprints (14 * DAY_MS) 1 5 5 (28 * DAY_MS)).avgVelPerFTE = none ∧
    (computeProjection c6sprints (14 * DAY_MS) 1 5 5
        (28 * DAY_MS)).projectedDonePerSprint = none ∧
    (computeProjection c6sprints (14 * DAY_MS) 1 5 5
        (28 * DAY_MS)).projectedCompletionMs = none ∧
    (computeProjection c6sprints (14 * DAY_MS) 1 5 5
        (28 * DAY_MS)).projectedCompletionEarlyMs = none ∧
    (computeProjection c6sprints (14 * DAY_MS) 1 5 5
        (28 * DAY_MS)).projectedCompletionLateMs = none ∧
    (computeProjection c6sprints (14 * DAY_MS) 1 5 5
        (28 * DAY_MS)).requiredFTEToHitTarget = none ∧
    (computeProjection c6sprints (14 * DAY_MS) 1 5 5 (28 * DAY_MS)).suggestedMaxFTE = none :=
  c6_anchor_without_sample_partial_fill c6sprints (14 * DAY_MS) 1 5 5 (28 * DAY_MS) 0
    (by decide) (by decide) (by decide) (by decide)

/-! ### C7 -/

/-- C7: whenever the projected velocity is positive and the remaining work
from the anchor is zero, all three projected completion timestamps equal the
anchor time — in `computeProjection` and in `recomputeProjectionWithFTE`. -/
theorem c7_zero_remaining_completions_at_anchor :
    (∀ (sprints : List SprintSummary) (sprintLenMs : ℤ) (sprintFTE : ℚ)
        (latestScope targetScope : ℕ) (targetDateMs : ℤ) (pd : ℚ) (t : ℤ),
      (computeProjection sprints sprintLenMs sprintFTE latestScope targetScope
          targetDateMs).projectedDonePerSprint = some pd →
      0 < pd →
      (computeProjection sprints sprintLenMs sprintFTE latestScope targetScope
          targetDateMs).remainingStoriesFromAnchor = some 0 →
      (computeProjection sprints sprintLenMs sprintFTE latestScope targetScope
          targetDateMs).fromTimeMs = some t →
      (computeProjection sprints sprintLenMs sprintFTE latestScope targetScope
          targetDateMs).projectedCompletionMs = some (t : ℚ) ∧
      (computeProjection sprints sprintLenMs sprintFTE latestScope targetScope
          targetDateMs).projectedCompletionEarlyMs = some (t : ℚ) ∧
      (computeProjection sprints sprintLenMs sprintFTE latestScope targetScope
          targetDateMs).projectedCompletionLateMs = some (t : ℚ)) ∧
    (∀ (model : BurnupModel) (sprintFTE : ℚ) (i : ℕ) (t : ℤ) (d : ℕ) (a : ℚ),
      model.projection.hasSignal = true →
      model.sprints ≠ [] →
      model.projection.fromSprintIndex = some i →
      model.projection.fromTimeMs = some t →
      model.projection.fromDone = some d →
      model.projection.avgVelPerFTE = some a →
      0 < a →
      model.latestScope ≤ d →
      (recomputeProjectionWithFTE model sprintFTE).projection.projectedCompletionMs =
        some (t : ℚ) ∧
      (recomputeProjectionWithFTE model sprintFTE).projection.projectedCompletionEarlyMs =
        some (t : ℚ) ∧
      (recomputeProjectionWithFTE model sprintFTE).projection.projectedCompletionLateMs =
        some (t : ℚ)) := by
  constructor
  · intro sprints sprintLenMs sprintFTE latestScope targetScope targetDateMs pd t
      hpd hpdpos hrem hft
    cases hlci : lastClosedIndex sprints with
    | none =>
      rw [computeProjection_none sprints sprintLenMs sprintFTE latestScope targetScope
        targetDateMs hlci] at hpd
      exact absurd hpd (by simp [emptyProjection])
    | some lci =>
      by_cases hsam : velSamplesGo sprints (max (1/10) sprintFTE) lci 0 0 = []
      · rw [computeProjection_noSample sprints sprintLenMs sprintFTE latestScope
          targetScope targetDateMs lci hlci hsam] at hpd
        exact absurd hpd (by simp)
      · obtain ⟨_, _, hft', _, _, _, hrem', hzero, _⟩ :=
          computeProjection_signal sprints sprintLenMs sprintFTE latestScope targetScope
            targetDateMs lci _ rfl hlci hsam
        have ht : t = (sprints.getD lci default).endMs := by
          rw [hft'] at hft
          exact (Option.some.inj hft).symm
        subst ht
        apply hzero
        rw [hrem'] at hrem
        exact (Option.some.inj hrem).symm ▸ rfl
  · intro model sprintFTE i t d a hsig hne hfi hft hfd ha hapos hle
    unfold recomputeProjectionWithFTE
    rw [if_neg hne, if_neg (not_not_intro hsig), hfi, hft, hfd, ha]
    dsimp only
    rw [if_neg (not_le.mpr hapos)]
    have hpd : 0 < a * max (1/10)
        (if max 0 sprintFTE = 0 then 0 else max 0 sprintFTE) := by
      apply mul_pos hapos
      by_cases h0 : max 0 sprintFTE = 0
      · rw [if_pos h0]
        norm_num
      · rw [if_neg h0]
        exact fteClamp_pos _
    rw [if_neg (not_le.mpr hpd)]
    have hrem : model.latestScope - d = 0 := Nat.sub_eq_zero_of_le hle
    rw [if_pos hrem]
    cases model.targetDateMs with
    | none => exact ⟨rfl, rfl, rfl⟩
    | some tgt => exact ⟨rfl, rfl, rfl⟩

/-- A one-closed-sprint history with everything delivered, for the C7
witness. -/
def c7sprints : List SprintSummary :=
  [{ index := 0, startMs := 0, endMs := 14 * DAY_MS, scopeAtEnd := 5, scopeAtStart := 0,
     doneThisSprint := 5, cumDoneEnd := 5, isClosed := true }]

/-- A concrete model for the re-parameterizer half of the C7 witness. -/
def c7model : BurnupModel :=
  { sprintLengthDays := 14
    originMs := some 0
    targetDateMs := some (28 * DAY_MS)
    targetScope := 5
    latestScope := 5
    todayMs := some (20 * DAY_MS)
    currentSprintStartMs := some 0
    currentSprintEndMs := some 0
    sprints := c7sprints
    projection :=
      { emptyProjection with
        hasSignal := true
        fromSprintIndex := some 0
        fromTimeMs := some (14 * DAY_MS)
        fromDone := some 5
        avgVelPerFTE := some 2 }
    totalDoneStories := 5
    hasAnyDone := true
    isOnTrack := none
    daysDeltaFromTarget := none }

/-- Witness for C7: both halves applied at concrete inputs. -/
theorem c7_zero_remaining_completions_at_anchor_witness :
    ((computeProjection c7sprints (14 * DAY_MS) 2 5 5 (28 * DAY_MS)).projectedCompletionMs =
        some ((14 * DAY_MS : ℤ) : ℚ) ∧
      (computeProjection c7sprints (14 * DAY_MS) 2 5 5
          (28 * DAY_MS)).projectedCompletionEarlyMs = some ((14 * DAY_MS : ℤ) : ℚ) ∧
      (computeProjection c7sprints (14 * DAY_MS) 2 5 5
          (28 * DAY_MS)).projectedCompletionLateMs = some ((14 * DAY_MS : ℤ) : ℚ)) ∧
    ((recomputeProjectionWithFTE c7model 3).projection.projectedCompletionMs =
        some ((14 * DAY_MS : ℤ) : ℚ) ∧
      (recomputeProjectionWithFTE c7model 3).projection.projectedCompletionEarlyMs =
        some ((14 * DAY_MS : ℤ) : ℚ) ∧
      (recomputeProjectionWithFTE c7model 3).projection.projectedCompletionLateMs =
        some ((14 * DAY_MS : ℤ) : ℚ)) :=
  ⟨c7_zero_remaining_completions_at_anchor.1 c7sprints (14 * DAY_MS) 2 5 5 (28 * DAY_MS)
      5 (14 * DAY_MS) (by decide) (by decide) (by decide) (by decide),
   c7_zero_remaining_completions_at_anchor.2 c7model 3 0 (14 * DAY_MS) 5 2 (by decide)
      (by decide) (by decide) (by decide) (by decide) (by decide) (by decide) (by decide)⟩

/-! ### C2 -/

/-- Modelled from the spec's words (for comparison with the loop in
`computeProjection`): walking backward from the anchor over closed sprints,
look at no more than 8 closed sprints, keep those with
`doneThisSprint > 0`, turn each into `doneThisSprint / fte`, and stop after
2 samples. -/
def velSamplesSpec (sprints : List SprintSummary) (fte : ℚ) (lci : ℕ) : List ℚ :=
  (((((sprints.take (lci + 1)).reverse.filter (fun s => s.isClosed)).take 8).filter
      (fun s => decide (0 < s.doneThisSprint))).map
    (fun s => (s.doneThisSprint : ℚ) / fte)).take 2

/-- The velocity-sample loop agrees with the declarative description, for
any loop state. -/
lemma velSamplesGo_eq_spec (sprints : List SprintSummary) (fte : ℚ) :
    ∀ i taken got, i < sprints.length →
    velSamplesGo sprints fte i taken got =
      (((((sprints.take (i + 1)).reverse.filter (fun s => s.isClosed)).take
            (8 - taken)).filter (fun s => decide (0 < s.doneThisSprint))).map
        (fun s => (s.doneThisSprint : ℚ) / fte)).take (2 - got) := by
  intro i
  induction i with
  | zero =>
    intro taken got h0
    cases sprints with
    | nil => simp at h0
    | cons s rest =>
      by_cases h82 : 8 ≤ taken ∨ 2 ≤ got
      · rw [velSamplesGo, if_pos h82]
        rcases h82 with h | h
        · rw [Nat.sub_eq_zero_of_le h]
          simp
        · rw [Nat.sub_eq_zero_of_le h]
          simp
      · have h8 : taken < 8 := by omega
        have h2 : got < 2 := by omega
        obtain ⟨k8, hk8⟩ : ∃ k, 8 - taken = k + 1 := ⟨7 - taken, by omega⟩
        obtain ⟨k2, hk2⟩ : ∃ k, 2 - got = k + 1 := ⟨1 - got, by omega⟩
        rw [velSamplesGo, if_neg h82]
        simp only [List.get?_cons_zero, List.take_succ_cons, List.take_zero,
          List.reverse_cons, List.reverse_nil, List.nil_append, List.filter_cons,
          List.filter_nil, hk8, hk2]
        by_cases hc : s.isClosed = true
        · rw [hc]
          simp only [if_true]
          by_cases hd : 0 < s.doneThisSprint
          · rw [if_pos hd]
            simp [List.take_succ_cons, hd]
          · rw [if_neg hd]
            simp [List.take_succ_cons, hd]
        · simp only [Bool.not_eq_true] at hc
          rw [hc]
          simp
  | succ j ih =>
    intro taken got hlt
    have hjlt : j < sprints.length := Nat.lt_of_succ_lt hlt
    have hget : sprints.get? (j + 1) = some (sprints.getD (j + 1) default) :=
      get?_eq_some_getD hlt
    have htake : sprints.take (j + 2) =
        sprints.take (j + 1) ++ [sprints.getD (j + 1) default] := by
      rw [List.take_succ, ← List.get?_eq_getElem?, hget]
      rfl
    by_cases h82 : 8 ≤ taken ∨ 2 ≤ got
    · rw [velSamplesGo, if_pos h82]
      rcases h82 with h | h
      · rw [Nat.sub_eq_zero_of_le h]
        simp
      · rw [Nat.sub_eq_zero_of_le h]
        simp
    · have h8 : taken < 8 := by omega
      have h2 : got < 2 := by omega
      obtain ⟨k8, hk8⟩ : ∃ k, 8 - taken = k + 1 := ⟨7 - taken, by omega⟩
      obtain ⟨k2, hk2⟩ : ∃ k, 2 - got = k + 1 := ⟨1 - got, by omega⟩
      rw [velSamplesGo, if_neg h82, hget]
      dsimp only
      rw [htake]
      simp only [List.reverse_append, List.reverse_cons, List.reverse_nil,
        List.nil_append, List.cons_append, List.filter_cons, hk8, hk2]
      by_cases hc : (sprints.getD (j + 1) default).isClosed = true
      · rw [hc]
        simp only [if_true, List.take_succ_cons]
        by_cases hd : 0 < (sprints.getD (j + 1) default).doneThisSprint
        · rw [if_pos hd]
          simp only [decide_eq_true_eq, List.filter_cons, if_pos hd, List.map_cons,
            List.take_succ_cons]
          have : k8 = 8 - (taken + 1) := by omega
          rw [this]
          have : k2 = 2 - (got + 1) := by omega
          rw [this]
          rw [ih (taken + 1) (got + 1) hjlt]
        · rw [if_neg hd]
          simp only [decide_eq_true_eq, List.filter_cons, if_neg hd]
          have : k8 = 8 - (taken + 1) := by omega
          rw [this]
          rw [ih (taken + 1) got hjlt, hk2]
      · simp only [Bool.not_eq_true] at hc
        rw [hc]
        simp only [Bool.false_eq_true, if_false]
        rw [ih taken got hjlt, hk8, hk2]

/-- The sprint history of the spec's velocity-extrapolation scenario: three
closed sprints with `doneThisSprint = [4, 0, 6]`. -/
def c2sprints : List SprintSummary :=
  [{ index := 0, startMs := 0, endMs := 14 * DAY_MS, scopeAtEnd := 20, scopeAtStart := 0,
     doneThisSprint := 4, cumDoneEnd := 4, isClosed := true },
   { index := 1, startMs := 14 * DAY_MS, endMs := 28 * DAY_MS, scopeAtEnd := 20,
     scopeAtStart := 20, doneThisSprint := 0, cumDoneEnd := 4, isClosed := true },
   { index := 2, startMs := 28 * DAY_MS, endMs := 42 * DAY_MS, scopeAtEnd := 20,
     scopeAtStart := 20, doneThisSprint := 6, cumDoneEnd := 10, isClosed := true }]

/-- C2: the velocity-per-FTE signal is the arithmetic mean of the samples
described by the spec — at most 2 `doneThisSprint / fte` values over closed
sprints scanned backward within an 8-closed-sprint window, stopping at 2 —
and on three closed sprints with `doneThisSprint = [4, 0, 6]` at `fte = 2`
the average is `5/2` and the projected velocity is `5`. -/
theorem c2_velocity_signal_mean_of_recent_nonzero :
    (∀ (sprints : List SprintSummary) (fte : ℚ) (lci : ℕ),
      lastClosedIndex sprints = some lci →
      velSamplesGo sprints fte lci 0 0 = velSamplesSpec sprints fte lci ∧
      (velSamplesSpec sprints fte lci).length ≤ 2) ∧
    (∀ (sprints : List SprintSummary) (sprintLenMs : ℤ) (sprintFTE : ℚ)
        (latestScope targetScope : ℕ) (targetDateMs : ℤ) (lci : ℕ),
      lastClosedIndex sprints = some lci →
      velSamplesGo sprints (max (1/10) sprintFTE) lci 0 0 ≠ [] →
      (computeProjection sprints sprintLenMs sprintFTE latestScope targetScope
          targetDateMs).avgVelPerFTE =
        some ((velSamplesSpec sprints (max (1/10) sprintFTE) lci).sum /
          ((velSamplesSpec sprints (max (1/10) sprintFTE) lci).length : ℚ))) ∧
    ((computeProjection c2sprints (14 * DAY_MS) 2 20 20 (100 * DAY_MS)).avgVelPerFTE =
        some (5/2) ∧
      (computeProjection c2sprints (14 * DAY_MS) 2 20 20
          (100 * DAY_MS)).projectedDonePerSprint = some 5) := by
  have hspec : ∀ (sprints : List SprintSummary) (fte : ℚ) (lci : ℕ),
      lastClosedIndex sprints = some lci →
      velSamplesGo sprints fte lci 0 0 = velSamplesSpec sprints fte lci := by
    intro sprints fte lci hlci
    have := velSamplesGo_eq_spec sprints fte lci 0 0 (lastClosedIndex_lt_length hlci)
    simpa [velSamplesSpec] using this
  refine ⟨?_, ?_, ?_⟩
  · intro sprints fte lci hlci
    exact ⟨hspec sprints fte lci hlci, by simp [velSamplesSpec]⟩
  · intro sprints sprintLenMs sprintFTE latestScope targetScope targetDateMs lci hlci hne
    obtain ⟨_, _, _, _, havg, _⟩ :=
      computeProjection_signal sprints sprintLenMs sprintFTE latestScope targetScope
        targetDateMs lci _ rfl hlci hne
    rw [havg, hspec sprints (max (1/10) sprintFTE) lci hlci]
  · exact ⟨by decide, by decide⟩

/-- Witness for C2: the general parts applied at the concrete three-sprint
history. -/
theorem c2_velocity_signal_mean_of_recent_nonzero_witness :
    (velSamplesGo c2sprints 2 2 0 0 = velSamplesSpec c2sprints 2 2 ∧
      (velSamplesSpec c2sprints 2 2).length ≤ 2) ∧
    (computeProjection c2sprints (14 * DAY_MS) 2 20 20 (100 * DAY_MS)).avgVelPerFTE =
      some ((velSamplesSpec c2sprints (max (1/10) 2) 2).sum /
        ((velSamplesSpec c2sprints (max (1/10) 2) 2).length : ℚ)) :=
  ⟨c2_velocity_signal_mean_of_recent_nonzero.1 c2sprints 2 2 (by decide),
   c2_velocity_signal_mean_of_recent_nonzero.2.1 c2sprints (14 * DAY_MS) 2 20 20
     (100 * DAY_MS) 2 (by decide) (by decide)⟩

/-! ### C3 -/

/-- On any path that builds a model from a parsed target date, the model's
origin is the derived origin. -/
lemma buildBurnupModel_originMs (input : BuildBurnupInput) (tgt today : ℤ)
    (m : BurnupModel) (ht : parseISODate input.devCompletionISO = some tgt)
    (hd : resolveTodayMs input = some today)
    (hm : buildBurnupModel input = some m) :
    m.originMs = some (originOf input today) := by
  simp only [buildBurnupModel, ht, hd] at hm
  split at hm
  · obtain rfl := Option.some.inj hm
    rw [assembleModel_originMs]
    rfl
  · split at hm
    · obtain rfl := Option.some.inj hm
      rw [assembleModel_originMs]
      rfl
    · exact Option.noConfusion hm

/-- With a valid Done story present, the derived origin is the minimum valid
resolution date pushed back by the working-day count, floored to epoch
day. -/
lemma deriveOriginMs_validDone (stories : List NormalisedIssue) (uiOrigin : Option ℤ)
    (today lenDays : ℤ) (hvd : validDoneOf stories ≠ []) :
    deriveOriginMs stories uiOrigin today lenDays =
      epochDayFloorMs (subtractWorkingDaysUTC
        (((validDoneOf stories).filterMap (fun s => s.resolvedMs)).min?.getD 0)
        (max 1 (jsRound (((lenDays * 5 : ℤ) : ℚ) / 7)))) := by
  cases hst : stories with
  | nil => rw [hst] at hvd; exact absurd rfl hvd
  | cons a t =>
    rw [← hst]
    unfold deriveOriginMs
    rw [hst]
    dsimp only
    rw [← hst, if_neg hvd]

/-- C3: when a valid Done story exists, the model origin is the earliest
valid resolution date minus `max(1, round(sprintLengthDays * 5/7))` working
days (Monday–Friday), floored to epoch day; for the default 14-day sprint
that count is exactly 10, and stepping 10 working days back from Monday
2025-01-20 lands on 2025-01-06 (skipping both weekends). -/
theorem c3_origin_working_days_before_earliest_done (input : BuildBurnupInput)
    (tgt today : ℤ) (m : BurnupModel)
    (ht : parseISODate input.devCompletionISO = some tgt)
    (hd : resolveTodayMs input = some today)
    (hm : buildBurnupModel input = some m)
    (hvd : validDoneOf (storiesOf input) ≠ []) :
    m.originMs = some (epochDayFloorMs (subtractWorkingDaysUTC
      (((validDoneOf (storiesOf input)).filterMap (fun s => s.resolvedMs)).min?.getD 0)
      (max 1 (jsRound (((sprintLenDaysOf input * 5 : ℤ) : ℚ) / 7))))) ∧
    max 1 (jsRound (((14 * 5 : ℤ) : ℚ) / 7)) = 10 ∧
    subtractWorkingDaysUTC (20108 * DAY_MS) 10 = 20094 * DAY_MS := by
  refine ⟨?_, by decide, by decide⟩
  rw [buildBurnupModel_originMs input tgt today m ht hd hm]
  unfold originOf
  rw [deriveOriginMs_validDone (storiesOf input) (parseISODate input.sprintStartISO)
    today (sprintLenDaysOf input) hvd]

/-- Witness for C3 at the concrete input whose single story resolved on
Monday 2025-01-20. -/
theorem c3_origin_working_days_before_earliest_done_witness :
    exModel.originMs = some (epochDayFloorMs (subtractWorkingDaysUTC
      (((validDoneOf (storiesOf exIn)).filterMap (fun s => s.resolvedMs)).min?.getD 0)
      (max 1 (jsRound (((sprintLenDaysOf exIn * 5 : ℤ) : ℚ) / 7))))) ∧
    max 1 (jsRound (((14 * 5 : ℤ) : ℚ) / 7)) = 10 ∧
    subtractWorkingDaysUTC (20108 * DAY_MS) 10 = 20094 * DAY_MS :=
  c3_origin_working_days_before_earliest_done exIn exTgt exToday exModel (by decide)
    (by decide) exIn_build (by decide)

/-! ### C9 -/

/-- Counterexample to C9 as stated: an issue created exactly at the epoch
(1970-01-01, parsed timestamp 0) with `statusCategory = Done`, no resolution
date and no cancelling status does get `resolvedAt` synthesized from
`createdAt`, but is NOT marked done — the synthesized `resolvedMs = 0` is
falsy in the `!!resolvedMs` conjunct of `isDone`. -/
theorem c9_epoch_zero_created_not_marked_done :
    (normaliseIssue ⟨.parsed 0, .missing, some .done, none⟩).map (fun n => n.resolvedMs) =
      some (some 0) ∧
    (normaliseIssue ⟨.parsed 0, .missing, some .done, none⟩).map (fun n => n.isDone) =
      some false := by decide

lemma parseJiraDate_parsed (ms : ℤ) :
    parseJiraDate (.parsed ms) = some (epochDayFloorMs ms) := rfl

/-- C9 amended: for every raw issue with a parseable creation date that does
not floor to exactly epoch zero, a missing or unparseable resolution date,
status text free of WITHDRAWN/CANCELLED, and `statusCategory = Done` or
trimmed upper-cased status exactly `DONE`, the normalizer synthesizes
`resolvedAt = createdAt` and marks the issue done, so it counts as completed
in every window ending after its creation date; and status text merely
starting with `DONE ` (without the category) triggers neither the synthesis
nor the done mark. -/
theorem c9_done_without_resolution_synthesized :
    (∀ (issue : BurnupIssue) (c : ℤ),
      issue.created = .parsed c →
      epochDayFloorMs c ≠ 0 →
      parseJiraDate issue.resolutiondate = none →
      listContains (jsToUpperList (jsTrimList ((issue.status.getD "").toList)))
        "WITHDRAWN".toList = false →
      listContains (jsToUpperList (jsTrimList ((issue.status.getD "").toList)))
        "CANCELLED".toList = false →
      (issue.statusCategory = some StatusCategory.done ∨
        jsToUpperList (jsTrimList ((issue.status.getD "").toList)) = "DONE".toList) →
      normaliseIssue issue = some
        ⟨epochDayFloorMs c, some (epochDayFloorMs c), true, false⟩ ∧
      (∀ e : ℤ, epochDayFloorMs c < e →
        doneByEndRawF [⟨epochDayFloorMs c, some (epochDayFloorMs c), true, false⟩] e = 1 ∧
        cumDoneEndF [⟨epochDayFloorMs c, some (epochDayFloorMs c), true, false⟩] e = 1)) ∧
    (∀ (issue : BurnupIssue) (c : ℤ),
      issue.created = .parsed c →
      parseJiraDate issue.resolutiondate = none →
      listStartsWith (jsToUpperList (jsTrimList ((issue.status.getD "").toList)))
        "DONE ".toList = true →
      issue.statusCategory ≠ some StatusCategory.done →
      jsToUpperList (jsTrimList ((issue.status.getD "").toList)) ≠ "DONE".toList →
      (normaliseIssue issue).map (fun n => n.resolvedMs) = some none ∧
      (normaliseIssue issue).map (fun n => n.isDone) = some false) := by
  constructor
  · intro issue c hcr hc0 hres hw hcanc hdone
    have hn : normaliseIssue issue = some
        ⟨epochDayFloorMs c, some (epochDayFloorMs c), true, false⟩ := by
      have hnotr : ¬ truthyOptInt none = true := by simp [truthyOptInt]
      rcases hdone with hcat | hstat
      · simp only [normaliseIssue, hcr, parseJiraDate_parsed, hres]
        rw [if_pos ⟨hnotr, Or.inl hcat⟩]
        simp only [truthyOptInt, hw, hcanc, hcat]
        simp [hc0]
      · simp only [normaliseIssue, hcr, parseJiraDate_parsed, hres]
        rw [if_pos ⟨hnotr, Or.inr hstat⟩]
        simp only [truthyOptInt, hw, hcanc, hstat]
        simp [hc0]
        decide
    refine ⟨hn, ?_⟩
    intro e he
    constructor
    · simp [doneByEndRawF, he]
    · simp [cumDoneEndF, doneByEndRawF, scopeAtEndF, he]
  · intro issue c hcr hres hsw hcat hexact
    have hcond : ¬ (¬ truthyOptInt none = true ∧
        (issue.statusCategory = some StatusCategory.done ∨
          jsToUpperList (jsTrimList ((issue.status.getD "").toList)) = "DONE".toList)) := by
      rintro ⟨-, h | h⟩
      · exact hcat h
      · exact hexact h
    simp only [normaliseIssue, hcr, parseJiraDate_parsed, hres]
    rw [if_neg hcond]
    constructor
    · rfl
    · simp [truthyOptInt]

/-- Witness for the amended C9: a Done-categorized issue created 2025-01-01
with no resolution date, and a `DONE LATER`-status issue. -/
theorem c9_done_without_resolution_synthesized_witness :
    (normaliseIssue ⟨.parsed (20089 * DAY_MS), .missing, some .done, none⟩ =
      some ⟨epochDayFloorMs (20089 * DAY_MS), some (epochDayFloorMs (20089 * DAY_MS)),
        true, false⟩ ∧
    (∀ e : ℤ, epochDayFloorMs (20089 * DAY_MS) < e →
      doneByEndRawF [⟨epochDayFloorMs (20089 * DAY_MS),
        some (epochDayFloorMs (20089 * DAY_MS)), true, false⟩] e = 1 ∧
      cumDoneEndF [⟨epochDayFloorMs (20089 * DAY_MS),
        some (epochDayFloorMs (20089 * DAY_MS)), true, false⟩] e = 1)) ∧
    ((normaliseIssue ⟨.parsed (5 * DAY_MS), .missing, none, some "Done later"⟩).map
        (fun n => n.resolvedMs) = some none ∧
      (normaliseIssue ⟨.parsed (5 * DAY_MS), .missing, none, some "Done later"⟩).map
        (fun n => n.isDone) = some false) :=
  ⟨c9_done_without_resolution_synthesized.1
      ⟨.parsed (20089 * DAY_MS), .missing, some .done, none⟩ (20089 * DAY_MS) rfl
      (by decide) (by decide) (by decide) (by decide) (Or.inl rfl),
   c9_done_without_resolution_synthesized.2
      ⟨.parsed (5 * DAY_MS), .missing, none, some "Done later"⟩ (5 * DAY_MS) rfl
      (by decide) (by decide) (by decide) (by decide)⟩


/-! ### C10 -/

lemma base_le_foldl_max : ∀ (t : List ℤ) (a : ℤ), a ≤ t.foldl max a
  | [], _ => le_refl _
  | b :: t, a => le_trans (le_max_left a b) (base_le_foldl_max t (max a b))

lemma le_foldl_max {x : ℤ} : ∀ (t : List ℤ) (a : ℤ), x ∈ a :: t → x ≤ t.foldl max a := by
  intro t
  induction t with
  | nil =>
    intro a hx
    simp only [List.mem_singleton] at hx
    subst hx
    exact le_refl _
  | cons b t ih =>
    intro a hx
    simp only [List.foldl_cons]
    rcases List.mem_cons.mp hx with rfl | hx'
    · exact le_trans (le_max_left x b) (base_le_foldl_max t (max x b))
    · rcases List.mem_cons.mp hx' with rfl | hx''
      · exact le_trans (le_max_right a x) (base_le_foldl_max t (max a x))
      · exact ih (max a b) (List.mem_cons.mpr (Or.inr hx''))

lemma le_max?_getD {l : List ℤ} {x : ℤ} (hx : x ∈ l) : x ≤ l.max?.getD 0 := by
  cases l with
  | nil => simp at hx
  | cons a t => exact le_foldl_max t a hx

lemma foldl_min_mem : ∀ (t : List ℤ) (a : ℤ), t.foldl min a ∈ a :: t := by
  intro t
  induction t with
  | nil => intro a; simp
  | cons b t ih =>
    intro a
    simp only [List.foldl_cons]
    have := ih (min a b)
    rcases List.mem_cons.mp this with h | h
    · rcases min_choice a b with hab | hab
      · rw [h, hab]; exact List.mem_cons_self _ _
      · rw [h, hab]
        exact List.mem_cons.mpr (Or.inr (List.mem_cons_self _ _))
    · exact List.mem_cons.mpr (Or.inr (List.mem_cons.mpr (Or.inr h)))

lemma min?_getD_mem {l : List ℤ} (h : l ≠ []) : l.min?.getD 0 ∈ l := by
  cases l with
  | nil => exact absurd rfl h
  | cons a t => exact foldl_min_mem t a

lemma subtractWorkingDaysGo_le : ∀ (l : ℕ) (ms : ℤ), subtractWorkingDaysGo l ms ≤ ms := by
  intro l
  induction l with
  | zero => intro ms; exact le_refl _
  | succ k ih =>
    intro ms
    have hd : (0:ℤ) < DAY_MS := by decide
    simp only [subtractWorkingDaysGo]
    split
    · exact le_trans (ih _) (by omega)
    · split
      · exact le_trans (ih _) (by omega)
      · exact le_trans (ih _) (by omega)

lemma epochDayFloorMs_le (e : ℤ) : epochDayFloorMs e ≤ e := by
  unfold epochDayFloorMs
  rw [Int.fdiv_eq_ediv _ (by decide : (0:ℤ) ≤ DAY_MS)]
  exact Int.ediv_mul_le e (by decide)

lemma subtractWorkingDaysUTC_le (e w : ℤ) : subtractWorkingDaysUTC e w ≤ e := by
  unfold subtractWorkingDaysUTC
  exact le_trans (subtractWorkingDaysGo_le _ _) (epochDayFloorMs_le e)

lemma lastStoryMsF_cons (a : NormalisedIssue) (t : List NormalisedIssue) (o : ℤ) :
    lastStoryMsF (a :: t) o =
      match (a :: t).filterMap (fun s => s.resolvedMs) with
      | [] => (((a :: t).map (fun s => s.createdMs)).max?).getD 0
      | _ => max ((((a :: t).map (fun s => s.createdMs)).max?).getD 0)
          ((((a :: t).filterMap (fun s => s.resolvedMs)).max?).getD 0) := rfl

lemma deriveOriginMs_cons (a : NormalisedIssue) (t : List NormalisedIssue)
    (uiOrigin : Option ℤ) (today lenDays : ℤ) :
    deriveOriginMs (a :: t) uiOrigin today lenDays =
      epochDayFloorMs
        (if validDoneOf (a :: t) = [] then
          (match uiOrigin with
           | some u => min u ((((a :: t).map (fun s => s.createdMs)).min?).getD 0)
           | none => (((a :: t).map (fun s => s.createdMs)).min?).getD 0)
        else
          subtractWorkingDaysUTC
            (((validDoneOf (a :: t)).filterMap (fun s => s.resolvedMs)).min?.getD 0)
            (max 1 (jsRound (((lenDays * 5 : ℤ) : ℚ) / 7)))) := rfl

lemma created_le_lastStoryMsF (a : NormalisedIssue) (t : List NormalisedIssue) (o : ℤ) :
    (((a :: t).map (fun s => s.createdMs)).max?).getD 0 ≤ lastStoryMsF (a :: t) o := by
  rw [lastStoryMsF_cons]
  split
  · exact le_refl _
  · exact le_max_left _ _

lemma resolved_le_lastStoryMsF (a : NormalisedIssue) (t : List NormalisedIssue) (o : ℤ)
    {x : ℤ} (hx : x ∈ (a :: t).filterMap (fun s => s.resolvedMs)) :
    x ≤ lastStoryMsF (a :: t) o := by
  rw [lastStoryMsF_cons]
  split
  next heq =>
    rw [heq] at hx
    simp at hx
  next =>
    exact le_trans (le_max?_getD hx) (le_max_right _ _)

/-- The derived origin never exceeds the "last story" timestamp used for the
horizon. -/
lemma deriveOriginMs_le_lastStory (stories : List NormalisedIssue) (uiOrigin : Option ℤ)
    (today lenDays : ℤ) :
    deriveOriginMs stories uiOrigin today lenDays ≤
      lastStoryMsF stories (deriveOriginMs stories uiOrigin today lenDays) := by
  cases stories with
  | nil =>
    simp only [lastStoryMsF]
    exact le_refl _
  | cons a t =>
    rw [deriveOriginMs_cons]
    refine le_trans (epochDayFloorMs_le _) ?_
    by_cases hvd : validDoneOf (a :: t) = []
    · rw [if_pos hvd]
      have hcrne : (a :: t).map (fun s => s.createdMs) ≠ [] := by simp
      have hminmax : (((a :: t).map (fun s => s.createdMs)).min?).getD 0 ≤
          (((a :: t).map (fun s => s.createdMs)).max?).getD 0 :=
        le_max?_getD (min?_getD_mem hcrne)
      have hlast := created_le_lastStoryMsF a t
        (epochDayFloorMs
          (if validDoneOf (a :: t) = [] then
            (match uiOrigin with
             | some u => min u ((((a :: t).map (fun s => s.createdMs)).min?).getD 0)
             | none => (((a :: t).map (fun s => s.createdMs)).min?).getD 0)
          else
            subtractWorkingDaysUTC
              (((validDoneOf (a :: t)).filterMap (fun s => s.resolvedMs)).min?.getD 0)
              (max 1 (jsRound (((lenDays * 5 : ℤ) : ℚ) / 7)))))
      cases uiOrigin with
      | some u => exact le_trans (le_trans (min_le_right _ _) hminmax) hlast
      | none => exact le_trans hminmax hlast
    · rw [if_neg hvd]
      have hvdres : (validDoneOf (a :: t)).filterMap (fun s => s.resolvedMs) ≠ [] := by
        cases hvdl : validDoneOf (a :: t) with
        | nil => exact absurd hvdl hvd
        | cons v vs =>
          have hv : v.resolvedMs ≠ none := by
            have hmem : v ∈ validDoneOf (a :: t) := by rw [hvdl]; simp
            unfold validDoneOf at hmem
            have := List.of_mem_filter hmem
            simp only [Bool.and_eq_true, Bool.not_eq_true'] at this
            intro hn
            rw [hn] at this
            simp at this
          cases hres : v.resolvedMs with
          | none => exact absurd hres hv
          | some r =>
            simp [List.filterMap_cons, hres]
      have hminmem := min?_getD_mem hvdres
      have hsub : ((validDoneOf (a :: t)).filterMap (fun s => s.resolvedMs)).Sublist
          ((a :: t).filterMap (fun s => s.resolvedMs)) :=
        List.Sublist.filterMap _ (List.filter_sublist (a :: t))
      have hmem2 : ((validDoneOf (a :: t)).filterMap
          (fun s => s.resolvedMs)).min?.getD 0 ∈
          (a :: t).filterMap (fun s => s.resolvedMs) := hsub.subset hminmem
      exact le_trans (subtractWorkingDaysUTC_le _ _)
        (resolved_le_lastStoryMsF a t _ hmem2)

/-- Window `i` is generated exactly when `i < sprintCount` (positive sprint
length). -/
lemma sprintCount_spec {origin horizon len : ℤ} (hlen : 0 < len) (i : ℕ) :
    origin + i * len ≤ horizon ↔ i < sprintCount origin horizon len := by
  unfold sprintCount
  by_cases hoh : origin > horizon
  · rw [if_pos hoh]
    have h1 : ¬ (origin + i * len ≤ horizon) := by
      have : (0:ℤ) ≤ i * len := mul_nonneg (Int.natCast_nonneg i) hlen.le
      omega
    simp [h1]
  · rw [if_neg hoh]
    push_neg at hoh
    rw [Nat.lt_succ_iff, Nat.le_div_iff_mul_le (by omega : 0 < len.toNat)]
    have hcast : ((i * len.toNat : ℕ) : ℤ) = i * len := by
      push_cast [Int.toNat_of_nonneg hlen.le]
      ring
    constructor
    · intro h
      have h2 : ((i * len.toNat : ℕ) : ℤ) ≤ horizon - origin := by
        rw [hcast]
        omega
      have h3 := Int.toNat_le_toNat h2
      rwa [Int.toNat_natCast] at h3
    · intro h
      have h2 : ((i * len.toNat : ℕ) : ℤ) ≤ ((horizon - origin).toNat : ℤ) := by
        exact_mod_cast h
      rw [hcast, Int.toNat_of_nonneg (by omega : (0:ℤ) ≤ horizon - origin)] at h2
      omega

/-- C10: with a finite target date, a resolved `todayMs` and a sprint length
of at least one day, the bucketing loop terminates: the generated windows
are exactly the indices `i < sprintCount`, the sprint list has that length,
each window starts at `origin + i·len` (so starts strictly increase by the
sprint length), and the first omitted window's start exceeds the horizon.
The positivity of the sprint length is necessary: with `sprintLengthDays =
0`, every window start stays within the horizon (the source's loop never
exits) and the embedding marks the build as divergent. -/
theorem c10_bucketing_terminates_iff_positive_length :
    (∀ (input : BuildBurnupInput) (tgt today : ℤ) (m : BurnupModel),
      parseISODate input.devCompletionISO = some tgt →
      resolveTodayMs input = some today →
      1 ≤ sprintLenDaysOf input →
      buildBurnupModel input = some m →
      m.sprints.length = sprintCount (originOf input today) (horizonOf input tgt today)
        (sprintLenMsOf input) ∧
      (∀ i : ℕ, originOf input today + i * sprintLenMsOf input ≤
          horizonOf input tgt today ↔ i < m.sprints.length) ∧
      horizonOf input tgt today <
        originOf input today + m.sprints.length * sprintLenMsOf input ∧
      (∀ i, i < m.sprints.length →
        (m.sprints.getD i default).startMs =
          originOf input today + i * sprintLenMsOf input ∧
        (m.sprints.getD i default).endMs =
          (m.sprints.getD i default).startMs + sprintLenMsOf input)) ∧
    (∀ (input : BuildBurnupInput) (tgt today : ℤ),
      parseISODate input.devCompletionISO = some tgt →
      resolveTodayMs input = some today →
      input.sprintLengthDays = some 0 →
      (∀ i : ℕ, originOf input today + i * sprintLenMsOf input ≤
        horizonOf input tgt today) ∧
      buildBurnupModel input = none) := by
  constructor
  · intro input tgt today m ht hd hdays hm
    have hlen : 0 < sprintLenMsOf input := by
      unfold sprintLenMsOf
      have : (0:ℤ) < DAY_MS := by decide
      nlinarith
    rw [buildBurnupModel_main input tgt today ht hd hlen] at hm
    obtain rfl := Option.some.inj hm
    rw [assembleModel_sprints, buildSprints_length]
    refine ⟨rfl, ?_, ?_, ?_⟩
    · intro i
      exact sprintCount_spec hlen i
    · have hiff := @sprintCount_spec (originOf input today) (horizonOf input tgt today)
        (sprintLenMsOf input) hlen
        (sprintCount (originOf input today) (horizonOf input tgt today)
          (sprintLenMsOf input))
      have hnot : ¬ (originOf input today +
          (sprintCount (originOf input today) (horizonOf input tgt today)
            (sprintLenMsOf input) : ℤ) * sprintLenMsOf input ≤
            horizonOf input tgt today) :=
        fun h => absurd (hiff.mp h) (lt_irrefl _)
      omega
    · intro i hi
      rw [buildSprints_getD _ _ _ _ hi]
      exact ⟨rfl, rfl⟩
  · intro input tgt today ht hd hzero
    have hlen0 : sprintLenMsOf input = 0 := by
      unfold sprintLenMsOf sprintLenDaysOf
      rw [hzero]
      rfl
    have horig : originOf input today ≤ horizonOf input tgt today := by
      unfold horizonOf
      rw [hlen0]
      have h1 := deriveOriginMs_le_lastStory (storiesOf input)
        (parseISODate input.sprintStartISO) today (sprintLenDaysOf input)
      have h2 : lastStoryMsF (storiesOf input) (originOf input today) ≤
          max today (max tgt (lastStoryMsF (storiesOf input) (originOf input today))) :=
        le_trans (le_max_right _ _) (le_max_right _ _)
      unfold originOf at *
      omega
    constructor
    · intro i
      rw [hlen0]
      simpa using horig
    · simp only [buildBurnupModel, ht, hd]
      rw [if_neg (by rw [show input.sprintLengthDays.getD 14 * DAY_MS =
            sprintLenMsOf input from rfl, hlen0]; exact lt_irrefl 0)]
      rw [if_neg ?hng]
      case hng =>
        push_neg
        have := horig
        unfold horizonOf sprintLenMsOf originOf at this
        simpa using this

/-- The example input with a zero sprint length, for the C10 witness. -/
def c10in : BuildBurnupInput :=
  { exIn with sprintLengthDays := some 0 }

/-- Witness for C10: both halves at concrete inputs. -/
theorem c10_bucketing_terminates_iff_positive_length_witness :
    (exModel.sprints.length = sprintCount (originOf exIn exToday)
        (horizonOf exIn exTgt exToday) (sprintLenMsOf exIn) ∧
      (∀ i : ℕ, originOf exIn exToday + i * sprintLenMsOf exIn ≤
          horizonOf exIn exTgt exToday ↔ i < exModel.sprints.length) ∧
      horizonOf exIn exTgt exToday <
        originOf exIn exToday + exModel.sprints.length * sprintLenMsOf exIn ∧
      (∀ i, i < exModel.sprints.length →
        (exModel.sprints.getD i default).startMs =
          originOf exIn exToday + i * sprintLenMsOf exIn ∧
        (exModel.sprints.getD i default).endMs =
          (exModel.sprints.getD i default).startMs + sprintLenMsOf exIn)) ∧
    ((∀ i : ℕ, originOf c10in exToday + i * sprintLenMsOf c10in ≤
        horizonOf c10in exTgt exToday) ∧
      buildBurnupModel c10in = none) :=
  ⟨c10_bucketing_terminates_iff_positive_length.1 exIn exTgt exToday exModel (by decide)
      (by decide) (by decide) exIn_build,
   c10_bucketing_terminates_iff_positive_length.2 c10in exTgt exToday (by decide)
      (by decide) rfl⟩

/-! ### C4 -/

/-- The re-parameterizer is the identity on models without signal. -/
lemma recompute_of_noSignal (model : BurnupModel) (f : ℚ)
    (h : model.projection.hasSignal = false) :
    recomputeProjectionWithFTE model f = model := by
  unfold recomputeProjectionWithFTE
  by_cases hsp : model.sprints = []
  · rw [if_pos hsp]
  · rw [if_neg hsp, if_pos (by simp [h])]

/-- Re-parameterizing an assembled model with the FTE it was built from
reproduces the projected-velocity and all three projected-completion
fields. -/
lemma recompute_assembleModel_same_fte (a b c d : ℤ) (f : ℚ) (sp : List SprintSummary) :
    (recomputeProjectionWithFTE (assembleModel a b c d (max 0 f) sp)
        f).projection.projectedDonePerSprint =
      (assembleModel a b c d (max 0 f) sp).projection.projectedDonePerSprint ∧
    (recomputeProjectionWithFTE (assembleModel a b c d (max 0 f) sp)
        f).projection.projectedCompletionMs =
      (assembleModel a b c d (max 0 f) sp).projection.projectedCompletionMs ∧
    (recomputeProjectionWithFTE (assembleModel a b c d (max 0 f) sp)
        f).projection.projectedCompletionEarlyMs =
      (assembleModel a b c d (max 0 f) sp).projection.projectedCompletionEarlyMs ∧
    (recomputeProjectionWithFTE (assembleModel a b c d (max 0 f) sp)
        f).projection.projectedCompletionLateMs =
      (assembleModel a b c d (max 0 f) sp).projection.projectedCompletionLateMs := by
  have hproj := assembleModel_projection a b c d (max 0 f) sp
  cases hlci : lastClosedIndex sp with
  | none =>
    have hsig : (assembleModel a b c d (max 0 f) sp).projection.hasSignal = false := by
      rw [hproj, computeProjection_none _ _ _ _ _ _ hlci]
      rfl
    rw [recompute_of_noSignal _ _ hsig]
    exact ⟨rfl, rfl, rfl, rfl⟩
  | some lci =>
    by_cases hsam : velSamplesGo sp (max (1/10) (max 0 f)) lci 0 0 = []
    · have hsig : (assembleModel a b c d (max 0 f) sp).projection.hasSignal = false := by
        rw [hproj, computeProjection_noSample _ _ _ _ _ _ lci hlci hsam]
      rw [recompute_of_noSignal _ _ hsig]
      exact ⟨rfl, rfl, rfl, rfl⟩
    · obtain ⟨hsig, hfi, hft, hfd, havg, hpdf, hrema, hzero, hnonzero⟩ :=
        computeProjection_signal sp (a * DAY_MS) (max 0 f) _ _ c lci _ hproj.symm hlci hsam
      have hfteC : (0:ℚ) < max (1/10) (max 0 f) := fteClamp_pos _
      have havgpos := samples_avg_pos hfteC hsam
      have hspne : (assembleModel a b c d (max 0 f) sp).sprints ≠ [] := by
        rw [assembleModel_sprints]
        have := lastClosedIndex_lt_length hlci
        exact List.ne_nil_of_length_pos (by omega)
      unfold recomputeProjectionWithFTE
      rw [if_neg hspne, if_neg (not_not_intro hsig), hfi, hft, hfd, havg]
      dsimp only
      rw [if_neg (not_le.mpr havgpos)]
      have hIf : (if max 0 f = 0 then 0 else max 0 f) = max 0 f := by
        by_cases h0 : max 0 f = 0
        · rw [if_pos h0, h0]
        · rw [if_neg h0]
      rw [hIf]
      have hpd : 0 < (velSamplesGo sp (max (1/10) (max 0 f)) lci 0 0).sum /
          ((velSamplesGo sp (max (1/10) (max 0 f)) lci 0 0).length : ℚ) *
          (max (1/10) (max 0 f)) := mul_pos havgpos hfteC
      rw [if_neg (not_le.mpr hpd)]
      rw [assembleModel_latestScope, assembleModel_sprintLengthDays,
        assembleModel_targetDateMs]
      dsimp only
      split
      next hrem =>
        obtain ⟨hc1, hc2, hc3⟩ := hzero hrem
        exact ⟨by rw [hpdf], by rw [hc1], by rw [hc2], by rw [hc3]⟩
      next hrem =>
        obtain ⟨hc1, hc2, hc3⟩ := hnonzero _ rfl hrem _ rfl
        rw [if_pos (mul_pos hpd (by norm_num : (0:ℚ) < 6/5)),
          if_pos (mul_pos hpd (by norm_num : (0:ℚ) < 4/5))]
        exact ⟨by rw [hpdf], by rw [hc1], by rw [hc2], by rw [hc3]⟩

/-- C4: re-parameterizing a built model with the same FTE value it was built
with leaves the projected velocity and all three projected completion
timestamps exactly equal (the underlying numeric computation is repeated
operation-for-operation). -/
theorem c4_recompute_same_fte_idempotent (input : BuildBurnupInput) (m : BurnupModel)
    (hm : buildBurnupModel input = some m) :
    (recomputeProjectionWithFTE m input.sprintFTE).projection.projectedDonePerSprint =
      m.projection.projectedDonePerSprint ∧
    (recomputeProjectionWithFTE m input.sprintFTE).projection.projectedCompletionMs =
      m.projection.projectedCompletionMs ∧
    (recomputeProjectionWithFTE m input.sprintFTE).projection.projectedCompletionEarlyMs =
      m.projection.projectedCompletionEarlyMs ∧
    (recomputeProjectionWithFTE m input.sprintFTE).projection.projectedCompletionLateMs =
      m.projection.projectedCompletionLateMs := by
  rcases buildBurnupModel_shape input m hm with ⟨hnil, _⟩ | ⟨tgt, today, _, _, _, hme⟩
  · have hid : recomputeProjectionWithFTE m input.sprintFTE = m := by
      unfold recomputeProjectionWithFTE
      rw [if_pos hnil]
    rw [hid]
    exact ⟨rfl, rfl, rfl, rfl⟩
  · subst hme
    exact recompute_assembleModel_same_fte (sprintLenDaysOf input) (originOf input today)
      tgt today input.sprintFTE _

/-- Witness for C4 at the concrete input. -/
theorem c4_recompute_same_fte_idempotent_witness :
    (recomputeProjectionWithFTE exModel exIn.sprintFTE).projection.projectedDonePerSprint =
      exModel.projection.projectedDonePerSprint ∧
    (recomputeProjectionWithFTE exModel exIn.sprintFTE).projection.projectedCompletionMs =
      exModel.projection.projectedCompletionMs ∧
    (recomputeProjectionWithFTE exModel
        exIn.sprintFTE).projection.projectedCompletionEarlyMs =
      exModel.projection.projectedCompletionEarlyMs ∧
    (recomputeProjectionWithFTE exModel
        exIn.sprintFTE).projection.projectedCompletionLateMs =
      exModel.projection.projectedCompletionLateMs :=
  c4_recompute_same_fte_idempotent exIn exModel exIn_build

end BunnUp
